import Mathlib

/-!
Shallow embedding of the hacker-news-timeline fetch/traversal/cache core.

Sources embedded here:
- `src/domain/types.ts` (HNItem, StoryEntity, CommentEntity, FeedEntry, StoryThread)
- `src/domain/mappers.ts` (toStoryEntity, toCommentEntity)
- `src/feed/mixer.ts` (seeded, shuffle, mixFeed)
- `src/api/hnClient.ts` (fetchItem, fetchItemsConcurrently)
- the feed service (shouldUseCache, getTopStoriesSnapshot, the cross-story and
  per-story traversal sessions, getStoryThread, getCommentContext)

Conventions: the remote item store is a pure function `store : Nat → Option HNItem`
(`getItem` never raises; absence covers transport failure).  JS numbers used as
integers become `Nat`/`Int`; the mixer's floating-point generator values are
modelled as exact rationals `ℚ` (no claim settled here depends on float
rounding: only the signs and the strict bound `value < 1` matter, and those are
exact).  JS truthiness tests on optional strings/numbers are spelled out.
-/

/-- JS truthiness of an optional string (`!s` is true for `undefined` and `""`). -/
def strTruthy : Option String → Bool
  | some s => s ≠ ""
  | none => false

/-- JS truthiness of an optional number (`!n` is true for `undefined` and `0`). -/
def natTruthy : Option Nat → Bool
  | some n => n ≠ 0
  | none => false

/-- Embeds `src/domain/types.ts` `HNItem`.  The `by` field is named `by_` (`by` is a
Lean keyword).  `kids?: number[]` is modelled as a plain list with `[]` for an
absent field: every use in the source (`item.kids ?? []`, `item.kids?.length`
truthiness, iteration) treats an absent list exactly like an empty one. -/
structure HNItem where
  id : Nat
  deleted : Bool
  type : Option String
  by_ : Option String
  time : Option Nat
  text : Option String
  dead : Bool
  parent : Option Nat
  kids : List Nat
  url : Option String
  score : Option Nat
  title : Option String
  descendants : Option Nat
deriving DecidableEq, Repr

/-- An `HNItem` with every optional field absent, used to build concrete items. -/
def baseItem (id : Nat) : HNItem :=
  { id := id, deleted := false, type := none, by_ := none, time := none,
    text := none, dead := false, parent := none, kids := [], url := none,
    score := none, title := none, descendants := none }

/-- Embeds `src/domain/types.ts` `StoryEntity`. -/
structure StoryEntity where
  id : Nat
  title : String
  url : Option String
  host : Option String
  by_ : String
  score : Nat
  time : Nat
  commentCount : Nat
deriving DecidableEq, Repr

/-- Embeds `src/domain/types.ts` `CommentEntity`. -/
structure CommentEntity where
  id : Nat
  by_ : String
  time : Nat
  textHtml : String
  parentId : Nat
  storyId : Nat
  storyTitle : String
  depth : Nat
deriving DecidableEq, Repr

/-- Embeds `src/domain/types.ts` `FeedEntry` (tagged union with a string id). -/
inductive FeedEntry where
  | story (id : String) (story : StoryEntity)
  | comment (id : String) (comment : CommentEntity)
deriving DecidableEq, Repr

/-- Embeds `src/domain/types.ts` `StoryThread`. -/
structure StoryThread where
  story : StoryEntity
  comments : List CommentEntity
deriving DecidableEq, Repr

/-- Embeds `src/domain/mappers.ts` `parseHost`: `new URL(url).hostname` with a leading
`www.` stripped, `null` when URL parsing throws.  The WHATWG URL parser is a
platform collaborator; it is approximated here by taking the text between the
first `://` and the following `/`.  No claim settled in this file depends on
the value of a host string, only on `toStoryEntity` being a fixed function. -/
def parseHost (url : String) : Option String :=
  match url.splitOn "://" with
  | _ :: rest :: _ =>
    let hostname := (rest.splitOn "/").headD ""
    if hostname.startsWith "www." then some (hostname.drop 4) else some hostname
  | _ => none

/-- Embeds `src/domain/mappers.ts` `toStoryEntity`. -/
def toStoryEntity (item : HNItem) : Option StoryEntity :=
  if item.type ≠ some "story" ∨ ¬ strTruthy item.title ∨ ¬ strTruthy item.by_ ∨
      ¬ natTruthy item.time then
    none
  else
    some
      { id := item.id,
        title := item.title.getD "",
        url := item.url,
        host := match item.url with
          | some u => parseHost u
          | none => none,
        by_ := item.by_.getD "",
        score := item.score.getD 0,
        time := item.time.getD 0,
        commentCount := (item.descendants.getD item.kids.length) }

/-- Embeds `src/domain/mappers.ts` `toCommentEntity`. -/
def toCommentEntity (item : HNItem) (story : StoryEntity) (depth : Nat) :
    Option CommentEntity :=
  if item.type ≠ some "comment" ∨ item.deleted ∨ item.dead ∨
      ¬ strTruthy item.by_ ∨ ¬ natTruthy item.time ∨ ¬ strTruthy item.text ∨
      ¬ natTruthy item.parent then
    none
  else
    some
      { id := item.id,
        by_ := item.by_.getD "",
        time := item.time.getD 0,
        textHtml := item.text.getD "",
        parentId := item.parent.getD 0,
        storyId := story.id,
        storyTitle := story.title,
        depth := depth }

/-! ## Mixer (`src/feed/mixer.ts`) -/

/-- Embeds `seeded`: the initial LCG state, `seed % 2147483647` (JS `%` is the
truncated remainder, `Int.tmod`) then `state += 2146...6` when `state <= 0`. -/
def lcgInitState (seed : Int) : Int :=
  let state := Int.tmod seed 2147483647
  if state ≤ 0 then state + 2147483646 else state

/-- Embeds `seeded`: one generator step, `state = (state * 16807) % 2147483647`. -/
def lcgNext (state : Int) : Int :=
  Int.tmod (state * 16807) 2147483647

/-- Embeds `seeded`: the value produced from a state, `(state - 1) / 2147483646`,
modelled as the exact rational `(state - 1) / 2147483646` (`Rat.divInt` is
exact division of integers; the reducible form is used so that concrete runs
evaluate inside the kernel). -/
def lcgVal (state : Int) : ℚ :=
  Rat.divInt (state - 1) 2147483646

/-- One Fisher-Yates swap `[arr[i], arr[j]] = [arr[j], arr[i]]` with `j` an
arbitrary (possibly negative) JS index.  Elements are `Option`-wrapped so that
the JS `undefined` read `arr[j]` for `j < 0` is representable: it stores
`undefined` at position `i` (the companion write to the non-index property
`arr[j]` does not affect the array's elements).  For `0 ≤ j` the generator
bound `lcgVal < 1` keeps `j ≤ i`, so `List.set`/`getD` agree with JS. -/
def swapJS {α : Type} (arr : List (Option α)) (i : Nat) (j : Int) :
    List (Option α) :=
  if 0 ≤ j then
    (arr.set i (arr.getD j.toNat none)).set j.toNat (arr.getD i none)
  else
    arr.set i none

/-- Embeds `shuffle`'s loop `for (let i = arr.length - 1; i > 0; i -= 1)`, indices
`i, i-1, ..., 1`; each step draws `random()` and swaps `i` with
`Math.floor(random() * (i + 1))`.  At loop index `i + 1` the swap target is
`Math.floor((st - 1) / 2147483646 * (i + 2))`, which over exact rationals is
the floor division `fdiv ((st - 1) * (i + 2)) 2147483646`. -/
def shuffleFrom {α : Type} : Nat → Int → List (Option α) → List (Option α) × Int
  | 0, state, arr => (arr, state)
  | i + 1, state, arr =>
    let st := lcgNext state
    let j : Int := Int.fdiv ((st - 1) * ((i : Int) + 2)) 2147483646
    shuffleFrom i st (swapJS arr (i + 1) j)

/-- Embeds `src/feed/mixer.ts` `shuffle` (also returns the advanced generator state,
which the source keeps in the shared closure). -/
def shuffle {α : Type} (values : List α) (state : Int) :
    List (Option α) × Int :=
  shuffleFrom (values.length - 1) state (values.map some)

/-- Embeds `mixFeed`'s `while (storyPool.length || commentPool.length)` loop.
One `random()` is drawn per iteration exactly when the story pool is non-empty
(JS `&&` short-circuit).  Reading `.id` from an `undefined` pool element (JS
`TypeError`) is modelled as `none`.  The first argument is structural fuel:
every iteration of the source loop removes exactly one element from one pool,
so `mixFeed` passes the total pool length and the fuel-exhaustion case (the
second pattern) is unreachable (see `mixLoop_total`). -/
def mixLoop :
    Nat → List (Option StoryEntity) → List (Option CommentEntity) → Int → ℚ →
      Option (List FeedEntry)
  | _, [], [], _, _ => some []
  | 0, _, _, _, _ => none
  | _ + 1, [], none :: _, _, _ => none
  | fuel + 1, [], some c :: crest, state, ratio =>
    (mixLoop fuel [] crest state ratio).map
      (fun rest => FeedEntry.comment ("comment-" ++ toString c.id) c :: rest)
  | fuel + 1, s? :: srest, cp, state, ratio =>
    let st := lcgNext state
    if lcgVal st < ratio ∨ cp = [] then
      match s? with
      | none => none
      | some s =>
        (mixLoop fuel srest cp st ratio).map
          (fun rest => FeedEntry.story ("story-" ++ toString s.id) s :: rest)
    else
      match cp with
      | [] => none
      | none :: _ => none
      | some c :: crest =>
        (mixLoop fuel (s? :: srest) crest st ratio).map
          (fun rest => FeedEntry.comment ("comment-" ++ toString c.id) c :: rest)

/-- Embeds `src/feed/mixer.ts` `mixFeed` (the source's default `storyRatio` is
`0.6`; it is passed explicitly here).  `none` models the `TypeError` raised
when a shuffled pool contains `undefined` (possible only for the degenerate
generator state `0`, see `lcgInitState`). -/
def mixFeed (stories : List StoryEntity) (comments : List CommentEntity)
    (seed : Int) (storyRatio : ℚ) : Option (List FeedEntry) :=
  let s0 := lcgInitState seed
  let shuffledStories := shuffle stories s0
  let shuffledComments := shuffle comments shuffledStories.2
  mixLoop (shuffledStories.1.length + shuffledComments.1.length)
    shuffledStories.1 shuffledComments.1 shuffledComments.2 storyRatio

/-! ## Item fetcher (`src/api/hnClient.ts`) -/

/-- State of `fetchItem`'s module-level `itemPromiseCache` plus a log of the
network requests actually issued (one entry per `fetch` call, in order). -/
structure FetchState where
  cache : List (Nat × Option HNItem)
  requests : List Nat
deriving DecidableEq, Repr

/-- The process-start state: empty promise cache, no requests issued. -/
def initialFetchState : FetchState := { cache := [], requests := [] }

/-- Embeds `src/api/hnClient.ts` `fetchItem`: a cache hit returns the stored promise
(its settled value here) and issues nothing; a miss issues one request, stores
the promise in the cache before returning, and resolves to the store's answer
(`null` for non-ok status or transport failure, both folded into the pure
`store` function). -/
def fetchItem (store : Nat → Option HNItem) (id : Nat) (st : FetchState) :
    Option HNItem × FetchState :=
  match st.cache.lookup id with
  | some result => (result, st)
  | none =>
    let result := store id
    (result,
      { cache := st.cache ++ [(id, result)], requests := st.requests ++ [id] })

/-- A sequence of `fetchItem` calls (concurrent callers of the source serialize
on the synchronous cache check, so any interleaving is some such sequence). -/
def runFetchCalls (store : Nat → Option HNItem) :
    List Nat → FetchState → List (Option HNItem) × FetchState
  | [], st => ([], st)
  | id :: rest, st =>
    let r := fetchItem store id st
    let rr := runFetchCalls store rest r.2
    (r.1 :: rr.1, rr.2)

/-- Embeds `src/api/hnClient.ts` `fetchItemsConcurrently`: chunked parallel fetches;
absent items are dropped and output order equals input order (each chunk's
results are appended in chunk order).  Since `fetchItem` always resolves to
`store id` (see `fetchItem_fst`), the chunking affects only scheduling and the
result is `ids.filterMap store`. -/
def fetchItemsConcurrently (store : Nat → Option HNItem) (ids : List Nat) :
    List HNItem :=
  ids.filterMap store

/-! ## Snapshot cache (feed service) -/

/-- The feed service's `FeedSnapshot` (`cachedAt` is a millisecond clock
reading, kept as `Int` so that `now - cachedAt` matches JS arithmetic). -/
structure FeedSnapshot where
  stories : List StoryEntity
  comments : List CommentEntity
  cachedAt : Int
deriving DecidableEq, Repr

/-- Feed service `shouldUseCache`:
`Boolean(cache && cache.stories.length > 0 && Date.now() - cache.cachedAt < maxAgeMs)`. -/
def shouldUseCache (cache : Option FeedSnapshot) (now maxAgeMs : Int) : Bool :=
  match cache with
  | some c =>
    decide (c.stories.length > 0) && decide (now - c.cachedAt < maxAgeMs)
  | none => false

/-- The feed service's module-level mutable state touched by
`getTopStoriesSnapshot`: the in-memory snapshot, the persisted tier (a
successful `persistSnapshot`; storage faults are swallowed and modelled as the
tier keeping its previous value, which only strengthens the "unchanged on
error" results proved below), and `storyRootIdsByStoryId`. -/
structure FeedServiceState where
  cache : Option FeedSnapshot
  persisted : Option FeedSnapshot
  storyRoots : List (Nat × List Nat)
deriving DecidableEq, Repr

/-- Feed service `fetchTopStories`: take the first `limit` top ids, fetch them
(`fetchItemsConcurrently`, absents dropped, order kept), keep those that map to
a `StoryEntity`, paired with their raw items. -/
def fetchTopStories (topIds : List Nat) (store : Nat → Option HNItem)
    (limit : Nat) : List (StoryEntity × HNItem) :=
  (fetchItemsConcurrently store (topIds.take limit)).filterMap
    (fun item => (toStoryEntity item).map (fun s => (s, item)))

/-- Outcome of one `getTopStoriesSnapshot` call.  `result = none` models the
thrown `Error` ("empty top stories payload"); `fetchedNetwork` records whether
the call went past the cache check to `fetchTopStories`. -/
structure SnapshotOutcome where
  result : Option FeedSnapshot
  state : FeedServiceState
  fetchedNetwork : Bool
deriving DecidableEq, Repr

/-- Feed service `getTopStoriesSnapshot` (defaults `storyLimit = 10`,
`cacheMs = 120000`, `forceRefresh = false` passed explicitly).  On a refresh,
`fetchTopStories` replaces `storyRoots` (the source clears and refills the
map), an empty story list throws, otherwise comments of the previous in-memory
snapshot owned by a surviving story are carried over (unless forced), capped at
120, and the merged snapshot becomes the cache and the persisted tier. -/
def getTopStoriesSnapshot (topIds : List Nat) (store : Nat → Option HNItem)
    (storyLimit : Nat) (cacheMs : Int) (forceRefresh : Bool) (now : Int)
    (st : FeedServiceState) : SnapshotOutcome :=
  if ¬ forceRefresh ∧ shouldUseCache st.cache now cacheMs then
    { result := st.cache, state := st, fetchedNetwork := false }
  else
    let storiesWithRaw := fetchTopStories topIds store storyLimit
    let st1 :=
      { st with storyRoots := storiesWithRaw.map (fun p => (p.1.id, p.2.kids)) }
    if storiesWithRaw.length = 0 then
      { result := none, state := st1, fetchedNetwork := true }
    else
      let storyIds := storiesWithRaw.map (fun p => p.1.id)
      let reusableComments :=
        if forceRefresh then []
        else ((st.cache.map FeedSnapshot.comments).getD []).filter
          (fun c => storyIds.contains c.storyId)
      let nextSnapshot : FeedSnapshot :=
        { stories := storiesWithRaw.map (fun p => p.1),
          comments := reusableComments.take 120,
          cachedAt := now }
      { result := some nextSnapshot,
        state :=
          { st1 with cache := some nextSnapshot, persisted := some nextSnapshot },
        fetchedNetwork := true }

/-! ## Per-story traversal session (feed service `getStoryThreadPage`) -/

/-- Feed service `StoryThreadSession`. -/
structure StoryThreadSession where
  story : StoryEntity
  queue : List Nat
  depthById : List (Nat × Nat)
  comments : List CommentEntity
  hasMore : Bool
deriving DecidableEq, Repr

/-- Feed service `StoryThreadPage`. -/
structure StoryThreadPage where
  story : StoryEntity
  comments : List CommentEntity
  hasMore : Bool
deriving DecidableEq, Repr

/-- Feed service `createStoryThreadSession`.  The depth map is an association
list extended only at absent keys, so `lookup` (first binding wins) agrees with
the source's `Map` here: the seeding values are all `0`, and later insertions
(`enqueueKids`) only happen for keys not present. -/
def createStoryThreadSession (store : Nat → Option HNItem) (storyId : Nat) :
    Option StoryThreadSession :=
  match store storyId with
  | none => none
  | some storyItem =>
    match toStoryEntity storyItem with
    | none => none
    | some story =>
      let rootIds := storyItem.kids
      some
        { story := story, queue := rootIds,
          depthById := rootIds.map (fun id => (id, 0)),
          comments := [], hasMore := decide (rootIds.length > 0) }

/-- The kids loop shared by both traversal drains: enqueue each kid that has no
recorded depth, recording `depth + 1` for it (first write wins). -/
def enqueueKids : List Nat → Nat → List (Nat × Nat) → List Nat →
    List (Nat × Nat) × List Nat
  | [], _, depthById, queue => (depthById, queue)
  | kid :: rest, depth, depthById, queue =>
    if (depthById.lookup kid).isSome then enqueueKids rest depth depthById queue
    else enqueueKids rest depth (depthById ++ [(kid, depth + 1)]) (queue ++ [kid])

/-- Mutable locals of `getStoryThreadPage`'s drain (`added` is the page's new
comment counter; `queue`, `depthById`, `comments` alias the session fields). -/
structure ThreadLoopState where
  queue : List Nat
  depthById : List (Nat × Nat)
  comments : List CommentEntity
  added : Nat
deriving DecidableEq, Repr

/-- The `for (const item of items)` body of `getStoryThreadPage`: skip absent
items, map at the recorded depth (`?? 0`), append, enqueue unseen kids at
`depth + 1`, and break out (discarding the rest of the already-dequeued chunk)
once `added` reaches `batchSize`. -/
def threadProcessBatch (story : StoryEntity) (batchSize : Nat) :
    List (Option HNItem) → ThreadLoopState → ThreadLoopState
  | [], s => s
  | none :: rest, s => threadProcessBatch story batchSize rest s
  | some item :: rest, s =>
    let depth := (s.depthById.lookup item.id).getD 0
    let stepped :=
      match toCommentEntity item story depth with
      | some mapped => (s.comments ++ [mapped], s.added + 1)
      | none => (s.comments, s.added)
    let dq := enqueueKids item.kids depth s.depthById s.queue
    let s1 : ThreadLoopState :=
      { queue := dq.2, depthById := dq.1, comments := stepped.1,
        added := stepped.2 }
    if stepped.2 ≥ batchSize then s1
    else threadProcessBatch story batchSize rest s1

/-- The `while (session.queue.length > 0 && added < batchSize)` drain of
`getStoryThreadPage`: splice a chunk of up to `concurrency` ids off the queue,
fetch them, process.  `fuel` bounds the iteration count (the source can loop
as long as fresh ids keep being discovered); every property proved below holds
for every fuel value. -/
def threadDrainLoop (store : Nat → Option HNItem) (story : StoryEntity)
    (batchSize concurrency : Nat) : Nat → ThreadLoopState → ThreadLoopState
  | 0, s => s
  | fuel + 1, s =>
    if s.queue.length > 0 ∧ s.added < batchSize then
      let batch := s.queue.take concurrency
      let rest := s.queue.drop concurrency
      let items := batch.map store
      let s1 := threadProcessBatch story batchSize items
        { s with queue := rest }
      threadDrainLoop store story batchSize concurrency fuel s1
    else s

/-- Replace the binding of `k` in an association list (JS `Map.set`). -/
def setAssoc {β : Type} (m : List (Nat × β)) (k : Nat) (v : β) :
    List (Nat × β) :=
  (k, v) :: m.filter (fun p => p.1 ≠ k)

/-- Drain an existing (or freshly created) session and store it back, building
the returned page (`comments` is the session's entire accumulated list). -/
def runStoryThreadPage (store : Nat → Option HNItem) (storyId : Nat)
    (batchSize concurrency fuel : Nat)
    (sessions : List (Nat × StoryThreadSession))
    (session : StoryThreadSession) :
    Option StoryThreadPage × List (Nat × StoryThreadSession) :=
  let final := threadDrainLoop store session.story batchSize concurrency fuel
    { queue := session.queue, depthById := session.depthById,
      comments := session.comments, added := 0 }
  let session1 : StoryThreadSession :=
    { story := session.story, queue := final.queue,
      depthById := final.depthById, comments := final.comments,
      hasMore := decide (final.queue.length > 0) }
  (some
      { story := session1.story, comments := session1.comments,
        hasMore := session1.hasMore },
    setAssoc sessions storyId session1)

/-- Feed service `getStoryThreadPage` (defaults `batchSize = 20`,
`concurrency = 8`, `reset = false` passed explicitly).  `reset` deletes the
story's session; a missing session is created from the story item (`null` when
the item is absent or not a valid story). -/
def getStoryThreadPage (store : Nat → Option HNItem) (storyId : Nat)
    (batchSize concurrency : Nat) (reset : Bool) (fuel : Nat)
    (sessions : List (Nat × StoryThreadSession)) :
    Option StoryThreadPage × List (Nat × StoryThreadSession) :=
  let sessions0 :=
    if reset then sessions.filter (fun p => p.1 ≠ storyId) else sessions
  match sessions0.lookup storyId with
  | some session =>
    runStoryThreadPage store storyId batchSize concurrency fuel sessions0 session
  | none =>
    match createStoryThreadSession store storyId with
    | none => (none, sessions0)
    | some created =>
      runStoryThreadPage store storyId batchSize concurrency fuel sessions0 created

/-- Feed service `getStoryThread`'s
`while (page.hasMore && page.comments.length < maxComments)` loop (pages of at
most `min 20 remaining`, concurrency 8, no reset).  A `null` page breaks out
and yields `null`. -/
def getStoryThreadLoop (store : Nat → Option HNItem) (storyId : Nat)
    (maxComments pageFuel : Nat) :
    Nat → StoryThreadPage → List (Nat × StoryThreadSession) →
      Option StoryThreadPage × List (Nat × StoryThreadSession)
  | 0, page, sessions => (some page, sessions)
  | loopFuel + 1, page, sessions =>
    if page.hasMore ∧ page.comments.length < maxComments then
      let next := getStoryThreadPage store storyId
        (min 20 (maxComments - page.comments.length)) 8 false pageFuel sessions
      match next.1 with
      | none => (none, next.2)
      | some p => getStoryThreadLoop store storyId maxComments pageFuel loopFuel p next.2
    else (some page, sessions)

/-- Feed service `getStoryThread` (default `maxComments = 160` passed
explicitly): a first page with `reset = true` and
`batchSize = min maxComments 20`, then the drain loop, then the accumulated
comments clipped to `maxComments`. -/
def getStoryThread (store : Nat → Option HNItem) (storyId : Nat)
    (maxComments pageFuel loopFuel : Nat)
    (sessions : List (Nat × StoryThreadSession)) :
    Option StoryThread × List (Nat × StoryThreadSession) :=
  let first := getStoryThreadPage store storyId (min maxComments 20) 8 true
    pageFuel sessions
  match first.1 with
  | none => (none, first.2)
  | some page =>
    let final := getStoryThreadLoop store storyId maxComments pageFuel loopFuel
      page first.2
    match final.1 with
    | none => (none, final.2)
    | some p =>
      (some { story := p.story, comments := p.comments.take maxComments },
        final.2)

/-! ## Cross-story traversal session (feed service) -/

/-- Feed service `FeedCommentQueueItem`. -/
structure FeedCommentQueueItem where
  storyId : Nat
  commentId : Nat
  depth : Nat
deriving DecidableEq, Repr

/-- Feed service `FeedCommentSession`. -/
structure FeedCommentSession where
  storyKey : String
  storyById : List (Nat × StoryEntity)
  queue : List FeedCommentQueueItem
  seenCommentIds : List Nat
  exhausted : Bool
deriving DecidableEq, Repr

/-- Feed service `getFeedStoryKey`: comma-joined story ids. -/
def getFeedStoryKey (stories : List StoryEntity) : String :=
  String.intercalate "," (stories.map (fun s => toString s.id))

/-- The queue built by `primeFeedCommentSession`: one entry per
(target story, root comment id) pair at depth 0, in story order then root
order. -/
def primeFeedQueue (stories : List StoryEntity)
    (storyRoots : List (Nat × List Nat)) (targetStoryIds : List Nat) :
    List FeedCommentQueueItem :=
  stories.foldl
    (fun q story =>
      if targetStoryIds.contains story.id then
        ((storyRoots.lookup story.id).getD []).foldl
          (fun q2 rootId =>
            q2 ++ [{ storyId := story.id, commentId := rootId, depth := 0 }])
          q
      else q)
    []

/-- Feed service `primeFeedCommentSession`.  `storyRoots` stands for
`storyRootIdsByStoryId` after `ensureStoryRootsForStoryIds` (root hydration
only fills that map).  Re-priming with an unchanged story key and no reset
keeps the live session; otherwise the queue is rebuilt and the seen set
cleared. -/
def primeFeedCommentSession (stories : List StoryEntity)
    (storyRoots : List (Nat × List Nat)) (targetStoryIds : List Nat)
    (reset : Bool) (session? : Option FeedCommentSession) :
    Option FeedCommentSession :=
  let storyKey := getFeedStoryKey stories
  let keep : Bool := match session? with
    | some s => !reset && s.storyKey == storyKey
    | none => false
  if keep then session?
  else
    let queue := primeFeedQueue stories storyRoots targetStoryIds
    some
      { storyKey := storyKey,
        storyById := stories.map (fun s => (s.id, s)),
        queue := queue,
        seenCommentIds := [],
        exhausted := decide (queue.length = 0) }

/-- Mutable locals of `getNextFeedCommentBatch`'s drain: the session queue and
seen set plus the per-call `comments` accumulator. -/
structure FeedLoopState where
  queue : List FeedCommentQueueItem
  seen : List Nat
  comments : List CommentEntity
deriving DecidableEq, Repr

/-- The kids loop of `getNextFeedCommentBatch`: push an entry at `depth + 1`
for each kid not in the seen set (the queue may receive duplicates; they are
skipped at processing time). -/
def enqueueFeedKids (storyId depth : Nat) (kids : List Nat) (seen : List Nat)
    (queue : List FeedCommentQueueItem) : List FeedCommentQueueItem :=
  kids.foldl
    (fun q kid =>
      if seen.contains kid then q
      else q ++ [{ storyId := storyId, commentId := kid, depth := depth + 1 }])
    queue

/-- The `for (let i = 0; ...)` body of `getNextFeedCommentBatch` over the
fetched chunk, paired with its queue entries: skip absent or already-seen ids,
mark seen, skip entries whose story is not in the session map, map at the
entry's depth, enqueue unseen kids, break once the batch is full. -/
def feedProcessBatch (storyById : List (Nat × StoryEntity)) (batchSize : Nat) :
    List (FeedCommentQueueItem × Option HNItem) → FeedLoopState → FeedLoopState
  | [], s => s
  | (entry, item?) :: rest, s =>
    match item? with
    | none => feedProcessBatch storyById batchSize rest s
    | some item =>
      if s.seen.contains entry.commentId then
        feedProcessBatch storyById batchSize rest s
      else
        let seen1 := s.seen ++ [entry.commentId]
        match storyById.lookup entry.storyId with
        | none => feedProcessBatch storyById batchSize rest { s with seen := seen1 }
        | some story =>
          let comments1 :=
            match toCommentEntity item story entry.depth with
            | some mapped => s.comments ++ [mapped]
            | none => s.comments
          let queue1 :=
            enqueueFeedKids entry.storyId entry.depth item.kids seen1 s.queue
          let s1 : FeedLoopState :=
            { queue := queue1, seen := seen1, comments := comments1 }
          if comments1.length ≥ batchSize then s1
          else feedProcessBatch storyById batchSize rest s1

/-- The `while (queue.length > 0 && comments.length < batchSize)` drain of
`getNextFeedCommentBatch` (chunks of up to `concurrency` entries). -/
def feedDrainLoop (store : Nat → Option HNItem)
    (storyById : List (Nat × StoryEntity)) (batchSize concurrency : Nat) :
    Nat → FeedLoopState → FeedLoopState
  | 0, s => s
  | fuel + 1, s =>
    if s.queue.length > 0 ∧ s.comments.length < batchSize then
      let batch := s.queue.take concurrency
      let rest := s.queue.drop concurrency
      let pairs := batch.map (fun e => (e, store e.commentId))
      let s1 := feedProcessBatch storyById batchSize pairs
        { s with queue := rest }
      feedDrainLoop store storyById batchSize concurrency fuel s1
    else s

/-- Result of one `getNextFeedCommentBatch` call. -/
structure FeedBatchResult where
  comments : List CommentEntity
  hasMore : Bool
deriving DecidableEq, Repr

/-- Feed service `getNextFeedCommentBatch` (defaults `batchSize = 10`,
`concurrency = 6` passed explicitly).  Without a live session it returns an
empty batch; otherwise it drains the queue, updates the session in place and
reports `hasMore` iff the queue is non-empty afterwards. -/
def getNextFeedCommentBatch (store : Nat → Option HNItem)
    (batchSize concurrency fuel : Nat) (session? : Option FeedCommentSession) :
    FeedBatchResult × Option FeedCommentSession :=
  match session? with
  | none => ({ comments := [], hasMore := false }, none)
  | some session =>
    let final := feedDrainLoop store session.storyById batchSize concurrency
      fuel
      { queue := session.queue, seen := session.seenCommentIds, comments := [] }
    let session1 : FeedCommentSession :=
      { session with
        queue := final.queue
        seenCommentIds := final.seen
        exhausted := decide (final.queue.length = 0) }
    ({ comments := final.comments, hasMore := ! session1.exhausted },
      some session1)

/-! ## Ancestor resolver (feed service `getCommentContext`) -/

/-- Embeds the `while (cursor && guard < 40)` parent walk of
`getCommentContext`: fetch the cursor, stop on an absent item (no story
found), record the chain, stop at the first ancestor of type `story`
(returning its id), otherwise climb.  The source counts `guard` up from 0
against the bound 40; this structural embedding counts the same quantity
down as `remaining = 40 - guard`, starting at 40. -/
def ancestorWalk (store : Nat → Option HNItem) :
    Nat → Option Nat → List HNItem → Option Nat × List HNItem
  | 0, _, parents => (none, parents)
  | remaining + 1, cursor?, parents =>
    if natTruthy cursor? then
      match store (cursor?.getD 0) with
      | none => (none, parents)
      | some parent =>
        let parents1 := parents ++ [parent]
        if parent.type = some "story" then (some parent.id, parents1)
        else ancestorWalk store remaining parent.parent parents1
    else (none, parents)

/-- Result shape of `getCommentContext`. -/
structure CommentContext where
  selectedId : Nat
  thread : StoryThread
  parents : List HNItem
deriving DecidableEq, Repr

/-- Feed service `getCommentContext`: fail when the selected item is absent or
not a comment; walk the parent chain (40-hop guard); JS `if (!storyId)` also
rejects a found story id of 0; then load the owning story's thread capped at
220 comments. -/
def getCommentContext (store : Nat → Option HNItem) (commentId : Nat)
    (pageFuel loopFuel : Nat) (sessions : List (Nat × StoryThreadSession)) :
    Option CommentContext × List (Nat × StoryThreadSession) :=
  match store commentId with
  | none => (none, sessions)
  | some selected =>
    if selected.type ≠ some "comment" then (none, sessions)
    else
      let walk := ancestorWalk store 40 selected.parent []
      if ¬ natTruthy walk.1 then (none, sessions)
      else
        let thread := getStoryThread store (walk.1.getD 0) 220 pageFuel
          loopFuel sessions
        match thread.1 with
        | none => (none, thread.2)
        | some t =>
          (some { selectedId := commentId, thread := t, parents := walk.2 },
            thread.2)

/-! ## Association-list lookup helpers -/

/-- A successful lookup key/value pair is a member of the list. -/
theorem lookup_mem {β : Type} {k : Nat} {v : β} :
    ∀ {l : List (Nat × β)}, l.lookup k = some v → (k, v) ∈ l := by
  intro l
  induction l with
  | nil => intro h; simp [List.lookup_nil] at h
  | cons p rest ih =>
    intro h
    obtain ⟨a, b⟩ := p
    rw [List.lookup_cons] at h
    cases hak : (k == a) with
    | true =>
      rw [hak] at h
      have hb : b = v := by simpa using h
      have hka : k = a := eq_of_beq hak
      subst hka; subst hb
      exact List.mem_cons_self _ _
    | false =>
      rw [hak] at h
      exact List.mem_cons_of_mem _ (ih h)

/-- Lookup in an appended list resolves in the left part first. -/
theorem lookup_append_some {β : Type} {k : Nat} {v : β} :
    ∀ {l1 l2 : List (Nat × β)}, l1.lookup k = some v →
      (l1 ++ l2).lookup k = some v := by
  intro l1 l2
  induction l1 with
  | nil => intro h; simp [List.lookup_nil] at h
  | cons p rest ih =>
    intro h
    obtain ⟨a, b⟩ := p
    rw [List.lookup_cons] at h
    rw [List.cons_append, List.lookup_cons]
    cases hak : (k == a) with
    | true => rw [hak] at h; exact h
    | false => rw [hak] at h; exact ih h

/-- Lookup in an appended list falls through a left part missing the key. -/
theorem lookup_append_none {β : Type} {k : Nat} :
    ∀ {l1 l2 : List (Nat × β)}, l1.lookup k = none →
      (l1 ++ l2).lookup k = l2.lookup k := by
  intro l1 l2
  induction l1 with
  | nil => intro _; simp
  | cons p rest ih =>
    intro h
    obtain ⟨a, b⟩ := p
    rw [List.lookup_cons] at h
    rw [List.cons_append, List.lookup_cons]
    cases hak : (k == a) with
    | true => rw [hak] at h; simp at h
    | false => rw [hak] at h; exact ih h

/-- A lookup hit stays a hit (with the same value) after appending. -/
theorem lookup_isSome_append {β : Type} {k : Nat} {l1 l2 : List (Nat × β)}
    (h : (l1.lookup k).isSome) : ((l1 ++ l2).lookup k).isSome := by
  cases hv : l1.lookup k with
  | none => rw [hv] at h; simp at h
  | some v => rw [lookup_append_some hv]; rfl

/-- Lookup over a constant-zero graph of a list of keys: hit at members. -/
theorem lookup_map_zero_mem {ids : List Nat} {k : Nat} (h : k ∈ ids) :
    (ids.map (fun id => (id, 0))).lookup k = some 0 :=
  List.lookup_graph (fun _ => 0) h

/-- Lookup over a constant-zero graph of a list of keys: miss elsewhere. -/
theorem lookup_map_zero_not_mem {k : Nat} :
    ∀ {ids : List Nat}, k ∉ ids →
      (ids.map (fun id => (id, 0))).lookup k = none := by
  intro ids
  induction ids with
  | nil => intro _; simp
  | cons a rest ih =>
    intro h
    rw [List.map_cons, List.lookup_cons]
    have hka : k ≠ a := fun hk => h (hk ▸ List.mem_cons_self _ _)
    have : (k == a) = false := by simp [hka]
    rw [this]
    exact ih (fun hk => h (List.mem_cons_of_mem _ hk))

/-! ## Concrete fixtures used by witnesses and counterexamples -/

/-- A well-formed story item with the given kid list. -/
def storyItem (id : Nat) (kids : List Nat) : HNItem :=
  { baseItem id with
    type := some "story"
    title := some "T"
    by_ := some "a"
    time := some 1
    kids := kids }

/-- A well-formed comment item with the given parent and kid list. -/
def commentItem (id parent : Nat) (kids : List Nat) : HNItem :=
  { baseItem id with
    type := some "comment"
    by_ := some "a"
    time := some 1
    text := some "x"
    parent := some parent
    kids := kids }

/-- Store for the per-story end-to-end example: story 10 with root comments
[1, 2], comment 1 having child [3]. -/
def storeA : Nat → Option HNItem
  | 10 => some (storyItem 10 [1, 2])
  | 1 => some (commentItem 1 10 [3])
  | 2 => some (commentItem 2 10 [])
  | 3 => some (commentItem 3 1 [])
  | _ => none

/-- Store with three valid leaf root comments under story 10. -/
def storeB : Nat → Option HNItem
  | 10 => some (storyItem 10 [1, 2, 3])
  | 1 => some (commentItem 1 10 [])
  | 2 => some (commentItem 2 10 [])
  | 3 => some (commentItem 3 10 [])
  | _ => none

/-- Store whose story 10 lists the same root comment id twice. -/
def storeC : Nat → Option HNItem := fun i =>
  if i = 10 then some (storyItem 10 [2, 2])
  else if i = 2 then some (commentItem 2 10 [])
  else none

/-- Store for the ancestor example: comment 5 -> comment 4 -> story 1. -/
def storeD : Nat → Option HNItem
  | 5 => some (commentItem 5 4 [])
  | 4 => some (commentItem 4 1 [5])
  | 1 => some (storyItem 1 [4])
  | _ => none

/-- Store with a 41-deep pure-comment parent chain above comment 0; the owning
story sits at hop 41, one past the 40-hop guard. -/
def storeE : Nat → Option HNItem
  | 0 => some (commentItem 0 1 [])
  | n + 1 =>
    if n + 1 ≤ 41 then
      (if n + 1 = 41 then some (storyItem 41 [])
       else some (commentItem (n + 1) (n + 2) []))
    else none

/-- A small concrete story entity. -/
def exStory1 : StoryEntity :=
  { id := 1, title := "t", url := none, host := none, by_ := "a", score := 0,
    time := 1, commentCount := 0 }

/-- A second concrete story entity. -/
def exStory2 : StoryEntity := { exStory1 with id := 2 }

/-- A small concrete comment entity. -/
def exComment1 : CommentEntity :=
  { id := 7, by_ := "a", time := 1, textHtml := "x", parentId := 1,
    storyId := 1, storyTitle := "t", depth := 0 }

/-! ## C5: mixer determinism -/

/-- C5: Mixer determinism — for every story list, comment list, seed, and
storyRatio, two calls to `mixFeed` with identical inputs produce identical
output sequences (same entries in the same order).  The embedding exposes the
generator state explicitly; `mixFeed` threads it from the seed alone, so equal
inputs give equal outputs. -/
theorem mixFeed_deterministic (stories1 stories2 : List StoryEntity)
    (comments1 comments2 : List CommentEntity) (seed1 seed2 : Int)
    (ratio1 ratio2 : ℚ) (hs : stories1 = stories2) (hc : comments1 = comments2)
    (hseed : seed1 = seed2) (hr : ratio1 = ratio2) :
    mixFeed stories1 comments1 seed1 ratio1 =
      mixFeed stories2 comments2 seed2 ratio2 := by
  subst hs; subst hc; subst hseed; subst hr; rfl

/-- Witness for C5: two identical calls at seed 42 agree. -/
theorem mixFeed_deterministic_witness :
    mixFeed [exStory1, exStory2] [exComment1] 42 (6 / 10) =
      mixFeed [exStory1, exStory2] [exComment1] 42 (6 / 10) :=
  mixFeed_deterministic [exStory1, exStory2] [exStory1, exStory2]
    [exComment1] [exComment1] 42 42 (6 / 10) (6 / 10) rfl rfl rfl rfl

/-! ## C2: item fetcher single flight -/

/-- Every cached promise of a fetch state resolves to the store's answer. -/
def CacheCoherent (store : Nat → Option HNItem) (st : FetchState) : Prop :=
  ∀ p ∈ st.cache, p.2 = store p.1

/-- The request log has no duplicates and every logged id is cached. -/
def RequestsOk (st : FetchState) : Prop :=
  st.requests.Nodup ∧ ∀ i ∈ st.requests, (st.cache.lookup i).isSome

/-- On a coherent state, `fetchItem` always resolves to the store's answer. -/
theorem fetchItem_fst (store : Nat → Option HNItem) (id : Nat) (st : FetchState)
    (hc : CacheCoherent store st) : (fetchItem store id st).1 = store id := by
  unfold fetchItem
  cases hv : st.cache.lookup id with
  | none => rfl
  | some r => exact hc (id, r) (lookup_mem hv)

/-- A `fetchItem` call preserves cache coherence. -/
theorem fetchItem_coherent (store : Nat → Option HNItem) (id : Nat)
    (st : FetchState) (hc : CacheCoherent store st) :
    CacheCoherent store (fetchItem store id st).2 := by
  unfold fetchItem
  cases hv : st.cache.lookup id with
  | some r => exact hc
  | none =>
    intro p hp
    rcases List.mem_append.mp hp with h1 | h2
    · exact hc p h1
    · rw [List.mem_singleton.mp h2]

/-- A `fetchItem` call preserves the request-log invariant. -/
theorem fetchItem_requestsOk (store : Nat → Option HNItem) (id : Nat)
    (st : FetchState) (hr : RequestsOk st) :
    RequestsOk (fetchItem store id st).2 := by
  unfold fetchItem
  cases hv : st.cache.lookup id with
  | some r => exact hr
  | none =>
    obtain ⟨hnd, hmem⟩ := hr
    constructor
    · have hid : id ∉ st.requests := by
        intro hin
        have := hmem id hin
        rw [hv] at this
        simp at this
      simp [List.nodup_append, hnd, hid]
    · intro i hi
      rcases List.mem_append.mp hi with h1 | h2
      · exact lookup_isSome_append (hmem i h1)
      · rw [List.mem_singleton.mp h2, lookup_append_none hv]
        simp [List.lookup_cons]

/-- Running a sequence of calls preserves both invariants. -/
theorem runFetchCalls_inv (store : Nat → Option HNItem) :
    ∀ (ids : List Nat) (st : FetchState), CacheCoherent store st →
      RequestsOk st →
      CacheCoherent store (runFetchCalls store ids st).2 ∧
        RequestsOk (runFetchCalls store ids st).2 := by
  intro ids
  induction ids with
  | nil => intro st hc hr; exact ⟨hc, hr⟩
  | cons id rest ih =>
    intro st hc hr
    simp only [runFetchCalls]
    exact ih (fetchItem store id st).2 (fetchItem_coherent store id st hc)
      (fetchItem_requestsOk store id st hr)

/-- Running a sequence of calls returns the store's answer for every id. -/
theorem runFetchCalls_results (store : Nat → Option HNItem) :
    ∀ (ids : List Nat) (st : FetchState), CacheCoherent store st →
      (runFetchCalls store ids st).1 = ids.map store := by
  intro ids
  induction ids with
  | nil => intro st _; rfl
  | cons id rest ih =>
    intro st hc
    simp only [runFetchCalls, List.map_cons]
    rw [fetchItem_fst store id st hc,
      ih (fetchItem store id st).2 (fetchItem_coherent store id st hc)]

/-- C2: Single flight with a process-lifetime result cache — over any sequence
of `fetchItem` calls from process start, at most one network request is ever
issued per id; every call resolves to the store's answer for its id (the same
underlying request's result); and a call for an already-cached id returns the
cached result and leaves the state untouched (no new request). -/
theorem fetchItem_single_flight (store : Nat → Option HNItem) (ids : List Nat)
    (id : Nat) (st : FetchState) (hcached : (st.cache.lookup id).isSome) :
    ((runFetchCalls store ids initialFetchState).2.requests.count id ≤ 1) ∧
    ((runFetchCalls store ids initialFetchState).1 = ids.map store) ∧
    (fetchItem store id st = ((st.cache.lookup id).getD none, st)) := by
  have hinit_c : CacheCoherent store initialFetchState := by
    intro p hp
    simp [initialFetchState] at hp
  have hinit_r : RequestsOk initialFetchState := by
    constructor
    · simp [initialFetchState]
    · intro i hi
      simp [initialFetchState] at hi
  refine ⟨?_, runFetchCalls_results store ids initialFetchState hinit_c, ?_⟩
  · have hr := (runFetchCalls_inv store ids initialFetchState hinit_c hinit_r).2
    exact List.nodup_iff_count_le_one.mp hr.1 id
  · unfold fetchItem
    cases hv : st.cache.lookup id with
    | none => rw [hv] at hcached; simp at hcached
    | some r => rfl

/-- Witness for C2: three calls for id 5 among four calls issue at most one
request for 5; all calls resolve from the store; a call on a state that has 5
cached returns the cached value and the unchanged state. -/
theorem fetchItem_single_flight_witness :
    ((runFetchCalls storeD [5, 5, 4, 5] initialFetchState).2.requests.count 5 ≤ 1) ∧
    ((runFetchCalls storeD [5, 5, 4, 5] initialFetchState).1 =
      [5, 5, 4, 5].map storeD) ∧
    (fetchItem storeD 5 { cache := [(5, storeD 5)], requests := [5] } =
      (([((5 : Nat), storeD 5)].lookup 5).getD none,
        { cache := [(5, storeD 5)], requests := [5] })) :=
  fetchItem_single_flight storeD [5, 5, 4, 5] 5
    { cache := [(5, storeD 5)], requests := [5] } (by decide)

/-! ## C3: snapshot cache TTL hit policy -/

/-- A concrete snapshot captured at 1000 with one story. -/
def exSnap : FeedSnapshot :=
  { stories := [exStory1], comments := [], cachedAt := 1000 }

/-- A second concrete snapshot. -/
def exSnapB : FeedSnapshot :=
  { stories := [exStory2], comments := [], cachedAt := 900 }

/-- A concrete feed-service state holding `exSnap` in memory. -/
def exFeedState : FeedServiceState :=
  { cache := some exSnap, persisted := none, storyRoots := [] }

/-- A concrete feed-service state with both tiers populated. -/
def exFeedStateB : FeedServiceState :=
  { cache := some exSnap, persisted := some exSnapB, storyRoots := [] }

/-- On the refetch path (forced or cache miss) the call always reaches the
network. -/
theorem getTopStoriesSnapshot_miss_fetched (topIds : List Nat)
    (store : Nat → Option HNItem) (storyLimit : Nat) (cacheMs : Int)
    (forceRefresh : Bool) (now : Int) (st : FeedServiceState)
    (h : ¬ (¬ forceRefresh = true ∧ shouldUseCache st.cache now cacheMs = true)) :
    (getTopStoriesSnapshot topIds store storyLimit cacheMs forceRefresh now
        st).fetchedNetwork = true := by
  unfold getTopStoriesSnapshot
  rw [if_neg h]
  by_cases he : (fetchTopStories topIds store storyLimit).length = 0
  · simp [he]
  · simp [he]

/-- C3: getTopStoriesSnapshot serves the in-memory snapshot without refetching
exactly when forceRefresh is false, a snapshot exists, its story list is
non-empty and `now - capturedAt < maxAge` (the `shouldUseCache` predicate);
on a hit the call returns the cached snapshot and leaves the state untouched;
and for a snapshot captured at `T` with `maxAge = M`, a read at `T + M - 1` is
a cache hit and a read at `T + M + 1` is a cache miss that refetches. -/
theorem getTopStoriesSnapshot_ttl (topIds : List Nat)
    (store : Nat → Option HNItem) (storyLimit : Nat) (cacheMs : Int)
    (forceRefresh : Bool) (now : Int) (st : FeedServiceState) (c : FeedSnapshot)
    (M : Int) (pers : Option FeedSnapshot) (roots : List (Nat × List Nat))
    (hc : c.stories ≠ []) :
    ((getTopStoriesSnapshot topIds store storyLimit cacheMs forceRefresh now
        st).fetchedNetwork = false ↔
      (forceRefresh = false ∧ shouldUseCache st.cache now cacheMs = true)) ∧
    (forceRefresh = false → shouldUseCache st.cache now cacheMs = true →
      getTopStoriesSnapshot topIds store storyLimit cacheMs forceRefresh now st =
        { result := st.cache, state := st, fetchedNetwork := false }) ∧
    (shouldUseCache (some c) now cacheMs = true ↔
      (0 < c.stories.length ∧ now - c.cachedAt < cacheMs)) ∧
    ((getTopStoriesSnapshot topIds store storyLimit M false (c.cachedAt + M - 1)
        { cache := some c, persisted := pers,
          storyRoots := roots }).fetchedNetwork = false) ∧
    ((getTopStoriesSnapshot topIds store storyLimit M false (c.cachedAt + M + 1)
        { cache := some c, persisted := pers,
          storyRoots := roots }).fetchedNetwork = true) := by
  have hlen : 0 < c.stories.length := List.length_pos.mpr hc
  have hkey : ∀ (now' maxAge' : Int),
      shouldUseCache (some c) now' maxAge' = true ↔
        (0 < c.stories.length ∧ now' - c.cachedAt < maxAge') := by
    intro now' maxAge'
    simp [shouldUseCache]
  refine ⟨?_, ?_, hkey now cacheMs, ?_, ?_⟩
  · constructor
    · intro hfetch
      by_cases hcond : (¬ forceRefresh = true ∧
          shouldUseCache st.cache now cacheMs = true)
      · exact ⟨by simpa using hcond.1, hcond.2⟩
      · rw [getTopStoriesSnapshot_miss_fetched topIds store storyLimit cacheMs
          forceRefresh now st hcond] at hfetch
        simp at hfetch
    · intro hh
      unfold getTopStoriesSnapshot
      rw [if_pos ⟨by simp [hh.1], hh.2⟩]
  · intro h1 h2
    unfold getTopStoriesSnapshot
    rw [if_pos ⟨by simp [h1], h2⟩]
  · unfold getTopStoriesSnapshot
    rw [if_pos ⟨by simp, (hkey (c.cachedAt + M - 1) M).mpr ⟨hlen, by omega⟩⟩]
  · refine getTopStoriesSnapshot_miss_fetched topIds store storyLimit M false
      (c.cachedAt + M + 1) _ ?_
    intro hcon
    have := (hkey (c.cachedAt + M + 1) M).mp hcon.2
    omega

/-- Witness for C3: with a snapshot captured at 1000 and `maxAge = 100`, the
read at 1099 hits the cache and the read at 1101 refetches. -/
theorem getTopStoriesSnapshot_ttl_witness :
    ((getTopStoriesSnapshot [] storeA 10 100 false (exSnap.cachedAt + 100 - 1)
        { cache := some exSnap, persisted := none,
          storyRoots := [] }).fetchedNetwork = false) ∧
    ((getTopStoriesSnapshot [] storeA 10 100 false (exSnap.cachedAt + 100 + 1)
        { cache := some exSnap, persisted := none,
          storyRoots := [] }).fetchedNetwork = true) :=
  ⟨(getTopStoriesSnapshot_ttl [] storeA 10 100 false 0 exFeedState exSnap 100
      none [] (by decide)).2.2.2.1,
    (getTopStoriesSnapshot_ttl [] storeA 10 100 false 0 exFeedState exSnap 100
      none [] (by decide)).2.2.2.2⟩

/-! ## C9: snapshot refresh atomicity on empty payload -/

/-- C9: on a refresh (cache miss or forceRefresh) whose fetched top-id list
yields zero valid stories, `getTopStoriesSnapshot` throws (modelled as
`result = none`) and neither the in-memory cache nor the persisted tier is
modified by the failed call. -/
theorem getTopStoriesSnapshot_empty_atomic (topIds : List Nat)
    (store : Nat → Option HNItem) (storyLimit : Nat) (cacheMs : Int)
    (forceRefresh : Bool) (now : Int) (st : FeedServiceState)
    (hmiss : forceRefresh = true ∨ shouldUseCache st.cache now cacheMs = false)
    (hempty : fetchTopStories topIds store storyLimit = []) :
    (getTopStoriesSnapshot topIds store storyLimit cacheMs forceRefresh now
        st).result = none ∧
    (getTopStoriesSnapshot topIds store storyLimit cacheMs forceRefresh now
        st).state.cache = st.cache ∧
    (getTopStoriesSnapshot topIds store storyLimit cacheMs forceRefresh now
        st).state.persisted = st.persisted := by
  have hcond : ¬ (¬ forceRefresh = true ∧
      shouldUseCache st.cache now cacheMs = true) := by
    intro hcon
    rcases hmiss with h1 | h1
    · rw [h1] at hcon
      exact hcon.1 rfl
    · rw [h1] at hcon
      exact Bool.false_ne_true hcon.2
  unfold getTopStoriesSnapshot
  rw [if_neg hcond]
  simp [hempty]

/-- Witness for C9: a forced refresh against a store with no items throws and
leaves both tiers unchanged. -/
theorem getTopStoriesSnapshot_empty_atomic_witness :
    (getTopStoriesSnapshot [99] (fun _ => none) 10 100 true 5000
        exFeedStateB).result = none ∧
    (getTopStoriesSnapshot [99] (fun _ => none) 10 100 true 5000
        exFeedStateB).state.cache = exFeedStateB.cache ∧
    (getTopStoriesSnapshot [99] (fun _ => none) 10 100 true 5000
        exFeedStateB).state.persisted = exFeedStateB.persisted :=
  getTopStoriesSnapshot_empty_atomic [99] (fun _ => none) 10 100 true 5000
    exFeedStateB (Or.inl rfl) (by decide)

/-! ## C7: exhaustion idempotence -/

/-- The per-story drain is a no-op on an empty queue, for every fuel. -/
theorem threadDrainLoop_queue_empty (store : Nat → Option HNItem)
    (story : StoryEntity) (batchSize concurrency : Nat) :
    ∀ (fuel : Nat) (s : ThreadLoopState), s.queue = [] →
      threadDrainLoop store story batchSize concurrency fuel s = s := by
  intro fuel s hq
  cases fuel with
  | zero => rfl
  | succ n =>
    unfold threadDrainLoop
    rw [if_neg]
    intro hcon
    rw [hq] at hcon
    simp at hcon

/-- The cross-story drain is a no-op on an empty queue, for every fuel. -/
theorem feedDrainLoop_queue_empty (store : Nat → Option HNItem)
    (storyById : List (Nat × StoryEntity)) (batchSize concurrency : Nat) :
    ∀ (fuel : Nat) (s : FeedLoopState), s.queue = [] →
      feedDrainLoop store storyById batchSize concurrency fuel s = s := by
  intro fuel s hq
  cases fuel with
  | zero => rfl
  | succ n =>
    unfold feedDrainLoop
    rw [if_neg]
    intro hcon
    rw [hq] at hcon
    simp at hcon

/-- Looking up the key just stored by `setAssoc` yields the stored value. -/
theorem setAssoc_lookup_self {β : Type} (m : List (Nat × β)) (k : Nat)
    (v : β) : (setAssoc m k v).lookup k = some v := by
  unfold setAssoc
  rw [List.lookup_cons]
  simp

/-- Draining a session whose queue is already empty returns the accumulated
comments, `hasMore = false`, and stores the session back unchanged but for
`hasMore := false`. -/
theorem runStoryThreadPage_queue_empty (store : Nat → Option HNItem)
    (storyId batchSize concurrency fuel : Nat)
    (sessions : List (Nat × StoryThreadSession)) (s : StoryThreadSession)
    (hq : s.queue = []) :
    runStoryThreadPage store storyId batchSize concurrency fuel sessions s =
      (some { story := s.story, comments := s.comments, hasMore := false },
        setAssoc sessions storyId
          { story := s.story, queue := [], depthById := s.depthById,
            comments := s.comments, hasMore := false }) := by
  unfold runStoryThreadPage
  rw [threadDrainLoop_queue_empty store s.story batchSize concurrency fuel
    { queue := s.queue, depthById := s.depthById, comments := s.comments,
      added := 0 } hq]
  simp [hq]

/-- A concrete exhausted per-story session. -/
def exThreadSession : StoryThreadSession :=
  { story := exStory1, queue := [], depthById := [(7, 0)],
    comments := [exComment1], hasMore := false }

/-- A concrete exhausted cross-story session. -/
def exFeedSession : FeedCommentSession :=
  { storyKey := "1", storyById := [(1, exStory1)], queue := [],
    seenCommentIds := [7], exhausted := true }

/-- C7: once a session's queue is empty (and its exhaustion flag reflects
that, as it does after any call that returned `hasMore = false`), every
further call returns an empty new batch and `hasMore = false` without
changing the session: the per-story page returns exactly the previously
accumulated comments and stores the same session back, and the cross-story
batch returns no comments and keeps the session intact. -/
theorem sessions_exhausted_idempotent (store : Nat → Option HNItem)
    (storyId batchSize concurrency fuel : Nat)
    (sessions : List (Nat × StoryThreadSession)) (s : StoryThreadSession)
    (hs : sessions.lookup storyId = some s) (hq : s.queue = [])
    (hm : s.hasMore = false) (fs : FeedCommentSession)
    (batchSize2 concurrency2 fuel2 : Nat) (hfq : fs.queue = [])
    (hfx : fs.exhausted = true) :
    (getStoryThreadPage store storyId batchSize concurrency false fuel
        sessions =
      (some { story := s.story, comments := s.comments, hasMore := false },
        setAssoc sessions storyId s)) ∧
    ((setAssoc sessions storyId s).lookup storyId = some s) ∧
    (getNextFeedCommentBatch store batchSize2 concurrency2 fuel2 (some fs) =
      ({ comments := [], hasMore := false }, some fs)) := by
  refine ⟨?_, setAssoc_lookup_self sessions storyId s, ?_⟩
  · unfold getStoryThreadPage
    rw [if_neg Bool.false_ne_true]
    simp only [hs]
    rw [runStoryThreadPage_queue_empty store storyId batchSize concurrency fuel
      sessions s hq]
    obtain ⟨story, queue, depthById, comments, hasMore⟩ := s
    simp only at hq hm
    subst hq
    subst hm
    rfl
  · obtain ⟨storyKey, storyById, queue, seen, exhausted⟩ := fs
    simp only at hfq hfx
    subst hfq
    subst hfx
    simp only [getNextFeedCommentBatch]
    rw [feedDrainLoop_queue_empty store storyById batchSize2 concurrency2 fuel2
      { queue := [], seen := seen, comments := [] } rfl]
    rfl

/-- Witness for C7 on concrete exhausted sessions. -/
theorem sessions_exhausted_idempotent_witness :
    (getStoryThreadPage storeA 1 20 8 false 50 [(1, exThreadSession)] =
      (some { story := exThreadSession.story
              comments := exThreadSession.comments
              hasMore := false },
        setAssoc [(1, exThreadSession)] 1 exThreadSession)) ∧
    ((setAssoc [(1, exThreadSession)] 1 exThreadSession).lookup 1 =
      some exThreadSession) ∧
    (getNextFeedCommentBatch storeA 10 6 50 (some exFeedSession) =
      ({ comments := [], hasMore := false }, some exFeedSession)) :=
  sessions_exhausted_idempotent storeA 1 20 8 50 [(1, exThreadSession)]
    exThreadSession (by decide) rfl rfl exFeedSession 10 6 50 rfl rfl

/-! ## C8: ancestor resolution -/

/-- C8: getCommentContext on an id whose item is absent or not a comment
returns absent; the parent walk appends each fetched ancestor to the chain and
stops at the first ancestor of type `story` with that story's id; the walk
gives up (absent) once the 40-hop guard is exhausted; on the concrete chain
comment(5) -> comment(4) -> story(1) the context resolves the owning story 1,
its thread, and parentChain [comment 4, story 1]; and on a 41-deep comment
chain whose story sits past the guard the context is absent. -/
theorem getCommentContext_spec (store : Nat → Option HNItem)
    (commentId : Nat) (pageFuel loopFuel : Nat)
    (sessions : List (Nat × StoryThreadSession)) (item : HNItem)
    (cursor? : Option Nat) (remaining : Nat) (parents : List HNItem)
    (parent : HNItem) :
    (store commentId = none →
      getCommentContext store commentId pageFuel loopFuel sessions =
        (none, sessions)) ∧
    (store commentId = some item → item.type ≠ some "comment" →
      getCommentContext store commentId pageFuel loopFuel sessions =
        (none, sessions)) ∧
    (natTruthy cursor? = true → store (cursor?.getD 0) = some parent →
      parent.type = some "story" →
      ancestorWalk store (remaining + 1) cursor? parents =
        (some parent.id, parents ++ [parent])) ∧
    (natTruthy cursor? = true → store (cursor?.getD 0) = some parent →
      parent.type ≠ some "story" →
      ancestorWalk store (remaining + 1) cursor? parents =
        ancestorWalk store remaining parent.parent (parents ++ [parent])) ∧
    (ancestorWalk store 0 cursor? parents = (none, parents)) ∧
    ((getCommentContext storeE 0 100 100 []).1 = none) ∧
    ((getCommentContext storeD 5 100 100 []).1.map
        (fun ctx => (ctx.selectedId, ctx.thread.story.id,
          ctx.parents.map HNItem.id)) = some (5, 1, [4, 1])) := by
  refine ⟨?_, ?_, ?_, ?_, rfl, by decide, by decide⟩
  · intro h
    unfold getCommentContext
    rw [h]
  · intro h htype
    unfold getCommentContext
    rw [h]
    simp only [if_pos htype]
  · intro hcur hstore htype
    conv_lhs => rw [ancestorWalk]
    rw [if_pos hcur, hstore]
    simp only [if_pos htype]
  · intro hcur hstore htype
    conv_lhs => rw [ancestorWalk]
    rw [if_pos hcur, hstore]
    simp only [if_neg htype]

/-- Witness for C8: the absent-item and non-comment cases on concrete stores,
and one concrete walk step stopping at a story. -/
theorem getCommentContext_spec_witness :
    (getCommentContext (fun _ => none) 3 10 10 [] = (none, [])) ∧
    (getCommentContext storeD 1 10 10 [] = (none, [])) ∧
    (ancestorWalk storeD 40 (some 1) [commentItem 4 1 [5]] =
      (some 1, [commentItem 4 1 [5], storyItem 1 [4]])) :=
  ⟨((getCommentContext_spec (fun _ => none) 3 10 10 [] (baseItem 0) none 0 []
      (baseItem 0)).1 rfl),
    ((getCommentContext_spec storeD 1 10 10 [] (storyItem 1 [4]) none 0 []
      (baseItem 0)).2.1 (by decide) (by decide)),
    ((getCommentContext_spec storeD 1 10 10 [] (baseItem 0) (some 1) 39
      [commentItem 4 1 [5]] (storyItem 1 [4])).2.2.1 (by decide) (by decide)
      (by decide))⟩

/-! ## C1: per-story pagination -/

/-- Processing a fetched chunk only appends to the accumulated comments. -/
theorem threadProcessBatch_comments_mono (story : StoryEntity)
    (batchSize : Nat) :
    ∀ (items : List (Option HNItem)) (s : ThreadLoopState),
      ∃ t, (threadProcessBatch story batchSize items s).comments =
        s.comments ++ t := by
  intro items
  induction items with
  | nil => intro s; exact ⟨[], by simp [threadProcessBatch]⟩
  | cons item? rest ih =>
    intro s
    cases item? with
    | none => simpa only [threadProcessBatch] using ih s
    | some item =>
      cases hmap : toCommentEntity item story
          ((s.depthById.lookup item.id).getD 0) with
      | none =>
        simp only [threadProcessBatch, hmap]
        split
        · exact ⟨[], by simp⟩
        · obtain ⟨t, ht⟩ := ih _
          exact ⟨t, by simpa using ht⟩
      | some mapped =>
        simp only [threadProcessBatch, hmap]
        split
        · exact ⟨[mapped], by simp⟩
        · obtain ⟨t, ht⟩ := ih _
          refine ⟨[mapped] ++ t, ?_⟩
          rw [ht]
          simp
  
/-- The per-story drain only appends to the accumulated comments. -/
theorem threadDrainLoop_comments_mono (store : Nat → Option HNItem)
    (story : StoryEntity) (batchSize concurrency : Nat) :
    ∀ (fuel : Nat) (s : ThreadLoopState),
      ∃ t, (threadDrainLoop store story batchSize concurrency fuel s).comments =
        s.comments ++ t := by
  intro fuel
  induction fuel with
  | zero => intro s; exact ⟨[], by simp [threadDrainLoop]⟩
  | succ n ih =>
    intro s
    unfold threadDrainLoop
    split
    · obtain ⟨t1, h1⟩ := threadProcessBatch_comments_mono story batchSize
        ((s.queue.take concurrency).map store) { s with queue := s.queue.drop concurrency }
      obtain ⟨t2, h2⟩ := ih (threadProcessBatch story batchSize
        ((s.queue.take concurrency).map store)
        { s with queue := s.queue.drop concurrency })
      refine ⟨t1 ++ t2, ?_⟩
      rw [h2, h1]
      simp
    · exact ⟨[], by simp⟩

/-- C1 (amended): per-story pagination is cumulative — every call on a live
session appends the newly drained comments to the session's accumulated list
and returns that entire accumulated list (which is also what is stored back) —
and the spec's end-to-end example behaves exactly as stated: with roots [1, 2]
where 1 has child [3], batchSize-2 calls return [1, 2] then [1, 2, 3] with
`hasMore = false` after the second call.  (Exhaustiveness in general is
refuted by `getStoryThreadPage_not_exhaustive`.) -/
theorem getStoryThreadPage_cumulative (store : Nat → Option HNItem)
    (storyId batchSize concurrency fuel : Nat)
    (sessions : List (Nat × StoryThreadSession)) (s : StoryThreadSession)
    (hs : sessions.lookup storyId = some s) :
    (∃ page s' t,
      getStoryThreadPage store storyId batchSize concurrency false fuel
          sessions = (some page, setAssoc sessions storyId s') ∧
      page.comments = s.comments ++ t ∧
      s'.comments = page.comments) ∧
    ((getStoryThreadPage storeA 10 2 8 false 100 []).1.map
      (fun p => (p.comments.map CommentEntity.id, p.hasMore)) =
        some ([1, 2], true)) ∧
    ((getStoryThreadPage storeA 10 2 8 false 100
        (getStoryThreadPage storeA 10 2 8 false 100 []).2).1.map
      (fun p => (p.comments.map CommentEntity.id, p.hasMore)) =
        some ([1, 2, 3], false)) := by
  refine ⟨?_, by decide, by decide⟩
  obtain ⟨t, ht⟩ := threadDrainLoop_comments_mono store s.story batchSize
    concurrency fuel
    { queue := s.queue, depthById := s.depthById, comments := s.comments,
      added := 0 }
  have hpage : getStoryThreadPage store storyId batchSize concurrency false
      fuel sessions =
      runStoryThreadPage store storyId batchSize concurrency fuel sessions s := by
    unfold getStoryThreadPage
    rw [if_neg Bool.false_ne_true]
    simp only [hs]
  rw [hpage]
  unfold runStoryThreadPage
  exact ⟨_, _, t, rfl, by simpa using ht, rfl⟩

/-- Witness for C1's amended theorem at the concrete example store. -/
theorem getStoryThreadPage_cumulative_witness :
    ∃ page s' t,
      getStoryThreadPage storeA 1 20 8 false 50 [(1, exThreadSession)] =
        (some page, setAssoc [(1, exThreadSession)] 1 s') ∧
      page.comments = exThreadSession.comments ++ t ∧
      s'.comments = page.comments :=
  (getStoryThreadPage_cumulative storeA 1 20 8 50 [(1, exThreadSession)]
    exThreadSession (by decide)).1

/-- C1 counterexample: with story 10 having three valid root comments
[1, 2, 3], a single batchSize-2 page (default concurrency 8) returns comments
[1, 2] with `hasMore = false`; the already-dequeued id 3 was discarded when the
batch filled, so repeated calls (the second call returns the same list) never
emit the valid reachable root comment 3 — refuting "repeatedly calling
getStoryThreadPage until hasMore is false emits every valid comment reachable
from the story's root comment ids". -/
theorem getStoryThreadPage_not_exhaustive :
    ((getStoryThreadPage storeB 10 2 8 false 100 []).1.map
      (fun p => (p.comments.map CommentEntity.id, p.hasMore)) =
        some ([1, 2], false)) ∧
    ((getStoryThreadPage storeB 10 2 8 false 100
        (getStoryThreadPage storeB 10 2 8 false 100 []).2).1.map
      (fun p => (p.comments.map CommentEntity.id, p.hasMore)) =
        some ([1, 2], false)) ∧
    ((storeB 10).map HNItem.kids = some [1, 2, 3]) ∧
    (((storeB 10).bind (fun it => (toStoryEntity it).bind
        (fun st => (storeB 3).bind
          (fun c3 => toCommentEntity c3 st 0)))).map CommentEntity.id =
      some 3) := by
  refine ⟨by decide, by decide, by decide, by decide⟩

/-! ## C6: mixer pool-exhaustion ordering at storyRatio = 1 -/

/-- Whether a feed entry is a story entry. -/
def isStoryEntry : FeedEntry → Bool
  | FeedEntry.story _ _ => true
  | FeedEntry.comment _ _ => false

/-- The generator value of any advanced state is strictly below 1 (the state
after one step is the truncated remainder by 2147483647, hence at most
2147483646). -/
theorem lcgVal_lcgNext_lt_one (state : Int) : lcgVal (lcgNext state) < 1 := by
  have hlt : Int.tmod (state * 16807) 2147483647 < 2147483647 :=
    Int.tmod_lt_of_pos _ (by norm_num)
  unfold lcgVal lcgNext
  rw [Rat.divInt_eq_div, div_lt_one (by norm_num)]
  exact_mod_cast (by omega :
    Int.tmod (state * 16807) 2147483647 - 1 < (2147483646 : Int))

/-- With the story pool empty, every emitted entry is a comment entry. -/
theorem mixLoop_no_story_entries :
    ∀ (fuel : Nat) (cp : List (Option CommentEntity)) (state : Int) (ratio : ℚ)
      (out : List FeedEntry), mixLoop fuel [] cp state ratio = some out →
      ∀ e ∈ out, isStoryEntry e = false := by
  intro fuel
  induction fuel with
  | zero =>
    intro cp state ratio out h
    cases cp with
    | nil =>
      simp [mixLoop] at h
      subst h
      simp
    | cons c crest => simp [mixLoop] at h
  | succ n ih =>
    intro cp state ratio out h
    cases cp with
    | nil =>
      simp [mixLoop] at h
      subst h
      simp
    | cons c? crest =>
      cases c? with
      | none => simp [mixLoop] at h
      | some c =>
        simp only [mixLoop] at h
        cases hrec : mixLoop n [] crest state ratio with
        | none => rw [hrec] at h; simp at h
        | some out' =>
          rw [hrec] at h
          simp only [Option.map_some'] at h
          cases h
          intro e he
          rcases List.mem_cons.mp he with he1 | he2
          · subst he1; rfl
          · exact ih crest state ratio out' hrec e he2

/-- With `storyRatio = 1`, the loop never draws a comment while the story pool
is non-empty: any successful output splits into a story-only part followed by
a comment-only part. -/
theorem mixLoop_ratio_one_split :
    ∀ (fuel : Nat) (sp : List (Option StoryEntity))
      (cp : List (Option CommentEntity)) (state : Int) (out : List FeedEntry),
      mixLoop fuel sp cp state 1 = some out →
      ∃ pre post, out = pre ++ post ∧ (∀ e ∈ pre, isStoryEntry e = true) ∧
        (∀ e ∈ post, isStoryEntry e = false) := by
  intro fuel
  induction fuel with
  | zero =>
    intro sp cp state out h
    cases sp with
    | cons s? srest => simp [mixLoop] at h
    | nil =>
      refine ⟨[], out, by simp, by simp, ?_⟩
      exact mixLoop_no_story_entries 0 cp state 1 out h
  | succ n ih =>
    intro sp cp state out h
    cases sp with
    | nil =>
      refine ⟨[], out, by simp, by simp, ?_⟩
      exact mixLoop_no_story_entries (n + 1) cp state 1 out h
    | cons s? srest =>
      simp only [mixLoop] at h
      rw [if_pos (Or.inl (lcgVal_lcgNext_lt_one state))] at h
      cases s? with
      | none => simp at h
      | some s =>
        simp only [] at h
        cases hrec : mixLoop n srest cp (lcgNext state) 1 with
        | none => rw [hrec] at h; simp at h
        | some out' =>
          rw [hrec] at h
          simp only [Option.map_some'] at h
          cases h
          obtain ⟨pre, post, hsplit, hpre, hpost⟩ :=
            ih srest cp (lcgNext state) out' hrec
          refine ⟨FeedEntry.story ("story-" ++ toString s.id) s :: pre, post,
            by simp [hsplit], ?_, hpost⟩
          intro e he
          rcases List.mem_cons.mp he with he1 | he2
          · subst he1; rfl
          · exact hpre e he2

/-- C6: with `storyRatio = 1` and a non-empty story list, `mixFeed` never
places a comment entry in the output before every story entry has been
emitted: every successful output is a story-only segment followed by a
comment-only segment. -/
theorem mixFeed_ratio_one_stories_first (stories : List StoryEntity)
    (comments : List CommentEntity) (seed : Int) (out : List FeedEntry)
    (hne : stories ≠ []) (hout : mixFeed stories comments seed 1 = some out) :
    ∃ pre post, out = pre ++ post ∧ (∀ e ∈ pre, isStoryEntry e = true) ∧
      (∀ e ∈ post, isStoryEntry e = false) := by
  unfold mixFeed at hout
  exact mixLoop_ratio_one_split _ _ _ _ out hout

/-- Witness for C6 at seed 42 with two stories and one comment: the concrete
output is story, story, comment. -/
theorem mixFeed_ratio_one_stories_first_witness :
    ∃ pre post,
      ([FeedEntry.story ("story-" ++ toString exStory2.id) exStory2,
        FeedEntry.story ("story-" ++ toString exStory1.id) exStory1,
        FeedEntry.comment ("comment-" ++ toString exComment1.id) exComment1] :
          List FeedEntry) = pre ++ post ∧
      (∀ e ∈ pre, isStoryEntry e = true) ∧
      (∀ e ∈ post, isStoryEntry e = false) :=
  mixFeed_ratio_one_stories_first [exStory1, exStory2] [exComment1] 42
    [FeedEntry.story ("story-" ++ toString exStory2.id) exStory2,
      FeedEntry.story ("story-" ++ toString exStory1.id) exStory1,
      FeedEntry.comment ("comment-" ++ toString exComment1.id) exComment1]
    (by decide) (by decide)

/-! ## C10: mixer exact interleaving -/

/-- Reachable generator states: `seeded` keeps its state in `[1, 2147483646]`
whenever the initial reduction does not yield 0. -/
def GoodLcgState (s : Int) : Prop := 1 ≤ s ∧ s ≤ 2147483646

/-- A nonzero initial state lies in the good range. -/
theorem lcgInitState_good (seed : Int) (h : lcgInitState seed ≠ 0) :
    GoodLcgState (lcgInitState seed) := by
  have h1 : Int.tmod seed 2147483647 < 2147483647 :=
    Int.tmod_lt_of_pos _ (by norm_num)
  have h2 : -2147483647 < Int.tmod seed 2147483647 := by
    have hneg : Int.tmod (-seed) 2147483647 < 2147483647 :=
      Int.tmod_lt_of_pos _ (by norm_num)
    have heq : Int.tmod (-seed) 2147483647 = - Int.tmod seed 2147483647 := by
      rw [Int.tmod_def, Int.tmod_def, Int.neg_tdiv]
      ring
    omega
  unfold lcgInitState at h ⊢
  by_cases hle : Int.tmod seed 2147483647 ≤ 0
  · rw [if_pos hle] at h ⊢
    constructor <;> omega
  · rw [if_neg hle] at h ⊢
    constructor <;> omega

/-- One generator step stays in the good range: the new state is a remainder
by 2147483647 (hence at most 2147483646) and cannot be 0 because 2147483647
is coprime to 16807 and exceeds the previous state. -/
theorem lcgNext_good {s : Int} (h : GoodLcgState s) :
    GoodLcgState (lcgNext s) := by
  obtain ⟨h1, h2⟩ := h
  have hub : lcgNext s < 2147483647 := Int.tmod_lt_of_pos _ (by norm_num)
  have hnn : 0 ≤ lcgNext s := Int.tmod_nonneg _ (by positivity)
  have hne : lcgNext s ≠ 0 := by
    intro h0
    have hdvd : (2147483647 : Int) ∣ s * 16807 :=
      Int.dvd_of_tmod_eq_zero h0
    have hdvd2 : (2147483647 : ℕ) ∣ (s * 16807).natAbs := by
      have hh := Int.natAbs_dvd_natAbs.mpr hdvd
      simpa using hh
    rw [Int.natAbs_mul] at hdvd2
    have hcop : Nat.Coprime 2147483647 (16807 : Int).natAbs := by decide
    have hs : (2147483647 : ℕ) ∣ s.natAbs :=
      Nat.Coprime.dvd_of_dvd_mul_right hcop hdvd2
    have hle := Nat.le_of_dvd (by omega) hs
    omega
  exact ⟨by omega, by omega⟩

/-- The Fisher-Yates index drawn at loop index `i + 1` from a good state lies
in `[0, i + 1]`. -/
theorem shuffle_index_range (st : Int) (i : Nat) (h : GoodLcgState st) :
    0 ≤ Int.fdiv ((st - 1) * ((i : Int) + 2)) 2147483646 ∧
      Int.fdiv ((st - 1) * ((i : Int) + 2)) 2147483646 ≤ (i : Int) + 1 := by
  obtain ⟨h1, h2⟩ := h
  have hnn : 0 ≤ (st - 1) * ((i : Int) + 2) := by
    apply mul_nonneg <;> omega
  constructor
  · exact Int.fdiv_nonneg hnn (by norm_num)
  · rw [Int.fdiv_eq_ediv _ (by norm_num)]
    have hlt : (st - 1) * ((i : Int) + 2) < ((i : Int) + 2) * 2147483646 := by
      have hle : st - 1 ≤ 2147483645 := by omega
      nlinarith
    have := (Int.ediv_lt_iff_lt_mul (c := (2147483646 : Int))
      (by norm_num)).mpr hlt
    omega

/-- Setting an index exchanges one occurrence: additive counting identity. -/
theorem count_set_eq {α : Type} [DecidableEq α] :
    ∀ (l : List α) (i : Nat) (b : α) (h : i < l.length) (x : α),
      List.count x (l.set i b) + (if l[i] = x then 1 else 0) =
        List.count x l + (if b = x then 1 else 0) := by
  intro l
  induction l with
  | nil => intro i b h x; simp at h
  | cons hd tl ih =>
    intro i b h x
    cases i with
    | zero =>
      rw [List.set_cons_zero]
      simp only [List.count_cons, List.getElem_cons_zero, beq_iff_eq]
      by_cases h1 : hd = x <;> by_cases h2 : b = x <;> simp [h1, h2]
    | succ n =>
      rw [List.set_cons_succ]
      simp only [List.count_cons, List.getElem_cons_succ, beq_iff_eq]
      have hn : n < tl.length := by simpa using h
      have := ih n b hn x
      by_cases h1 : hd = x <;> simp [h1] <;> omega

/-- A swap whose target index is in range permutes the array. -/
theorem swapJS_perm {α : Type} [DecidableEq α] (arr : List (Option α))
    (i : Nat) (j : Int) (hj0 : 0 ≤ j) (hi : i < arr.length)
    (hjn : j.toNat < arr.length) :
    (swapJS arr i j).Perm arr := by
  unfold swapJS
  rw [if_pos hj0]
  rw [List.getD_eq_getElem arr none hjn, List.getD_eq_getElem arr none hi]
  rw [List.perm_iff_count]
  intro a
  have hj1 : j.toNat < (arr.set i arr[j.toNat]).length := by
    rw [List.length_set]
    exact hjn
  have e1 := count_set_eq (arr.set i arr[j.toNat]) j.toNat arr[i] hj1 a
  have e2 := count_set_eq arr i arr[j.toNat] hi a
  rw [List.getElem_set, ite_self] at e1
  omega

/-- A swap preserves the array length. -/
theorem swapJS_length {α : Type} (arr : List (Option α)) (i : Nat) (j : Int) :
    (swapJS arr i j).length = arr.length := by
  unfold swapJS
  split <;> simp

/-- From a good state, the shuffle loop permutes the array and ends in a good
state. -/
theorem shuffleFrom_perm {α : Type} [DecidableEq α] :
    ∀ (i : Nat) (state : Int) (arr : List (Option α)),
      GoodLcgState state → (i = 0 ∨ i < arr.length) →
      (shuffleFrom i state arr).1.Perm arr ∧
        GoodLcgState (shuffleFrom i state arr).2 := by
  intro i
  induction i with
  | zero => intro state arr hg _; exact ⟨List.Perm.refl _, hg⟩
  | succ n ih =>
    intro state arr hg hi
    rcases hi with h0 | hlt
    · exact absurd h0 (Nat.succ_ne_zero n)
    · have hgood : GoodLcgState (lcgNext state) := lcgNext_good hg
      have hrange := shuffle_index_range (lcgNext state) n hgood
      have heq : shuffleFrom (n + 1) state arr =
          shuffleFrom n (lcgNext state) (swapJS arr (n + 1)
            (Int.fdiv ((lcgNext state - 1) * ((n : Int) + 2)) 2147483646)) :=
        rfl
      rw [heq]
      have hjn : (Int.fdiv ((lcgNext state - 1) * ((n : Int) + 2))
          2147483646).toNat < arr.length := by
        omega
      have hswap := swapJS_perm arr (n + 1)
        (Int.fdiv ((lcgNext state - 1) * ((n : Int) + 2)) 2147483646)
        hrange.1 hlt hjn
      have hrec := ih (lcgNext state)
        (swapJS arr (n + 1)
          (Int.fdiv ((lcgNext state - 1) * ((n : Int) + 2)) 2147483646))
        hgood
        (by
          right
          rw [swapJS_length]
          omega)
      exact ⟨hrec.1.trans hswap, hrec.2⟩

/-- From a good state, `shuffle` returns a permutation of the `some`-wrapped
input values and a good state. -/
theorem shuffle_perm {α : Type} [DecidableEq α] (values : List α) (state : Int)
    (hg : GoodLcgState state) :
    (shuffle values state).1.Perm (values.map some) ∧
      GoodLcgState (shuffle values state).2 := by
  unfold shuffle
  apply shuffleFrom_perm (values.length - 1) state (values.map some) hg
  rw [List.length_map]
  omega

/-- Story payload of a feed entry. -/
def entryStory : FeedEntry → Option StoryEntity
  | FeedEntry.story _ s => some s
  | FeedEntry.comment _ _ => none

/-- Comment payload of a feed entry. -/
def entryComment : FeedEntry → Option CommentEntity
  | FeedEntry.story _ _ => none
  | FeedEntry.comment _ c => some c

/-- With `undefined`-free pools and fuel equal to the total pool length, the
mixer loop succeeds and consumes both pools exactly: the output's story
payloads are the story pool in pool order and its comment payloads the
comment pool in pool order. -/
theorem mixLoop_interleaves :
    ∀ (fuel : Nat) (sp : List (Option StoryEntity))
      (cp : List (Option CommentEntity)) (state : Int) (ratio : ℚ),
      fuel = sp.length + cp.length →
      (∀ e ∈ sp, e.isSome) → (∀ e ∈ cp, e.isSome) →
      ∃ out, mixLoop fuel sp cp state ratio = some out ∧
        out.length = sp.length + cp.length ∧
        out.filterMap entryStory = sp.reduceOption ∧
        out.filterMap entryComment = cp.reduceOption := by
  intro fuel
  induction fuel with
  | zero =>
    intro sp cp state ratio hf hsp hcp
    cases sp with
    | cons s? srest =>
      simp at hf
      omega
    | nil =>
      cases cp with
      | cons c? crest => simp at hf
      | nil => exact ⟨[], rfl, rfl, rfl, rfl⟩
  | succ n ih =>
    intro sp cp state ratio hf hsp hcp
    cases sp with
    | nil =>
      cases cp with
      | nil => simp at hf
      | cons c? crest =>
        obtain ⟨c, hc⟩ := Option.isSome_iff_exists.mp
          (hcp c? (List.mem_cons_self _ _))
        subst hc
        obtain ⟨out, hout, hlen, hsto, hcom⟩ := ih [] crest state ratio
          (by simpa using hf) (by simp)
          (fun e he => hcp e (List.mem_cons_of_mem _ he))
        refine ⟨FeedEntry.comment ("comment-" ++ toString c.id) c :: out,
          ?_, ?_, ?_, ?_⟩
        · simp [mixLoop, hout]
        · simp at hlen ⊢
          omega
        · simpa [List.filterMap_cons, entryStory] using hsto
        · simpa [List.filterMap_cons, entryComment] using hcom
    | cons s? srest =>
      obtain ⟨s, hsome⟩ := Option.isSome_iff_exists.mp
        (hsp s? (List.mem_cons_self _ _))
      subst hsome
      by_cases hpick : lcgVal (lcgNext state) < ratio ∨ cp = []
      · obtain ⟨out, hout, hlen, hsto, hcom⟩ := ih srest cp (lcgNext state)
          ratio (by simp at hf ⊢; omega)
          (fun e he => hsp e (List.mem_cons_of_mem _ he)) hcp
        refine ⟨FeedEntry.story ("story-" ++ toString s.id) s :: out,
          ?_, ?_, ?_, ?_⟩
        · simp only [mixLoop]
          rw [if_pos hpick, hout]
          rfl
        · simp at hlen ⊢
          omega
        · simpa [List.filterMap_cons, entryStory] using hsto
        · simpa [List.filterMap_cons, entryComment] using hcom
      · have hcpne : cp ≠ [] := by
          intro hnil
          exact hpick (Or.inr hnil)
        cases cp with
        | nil => exact absurd rfl hcpne
        | cons c? crest =>
          obtain ⟨c, hc⟩ := Option.isSome_iff_exists.mp
            (hcp c? (List.mem_cons_self _ _))
          subst hc
          obtain ⟨out, hout, hlen, hsto, hcom⟩ := ih (some s :: srest) crest
            (lcgNext state) ratio (by simp at hf ⊢; omega) hsp
            (fun e he => hcp e (List.mem_cons_of_mem _ he))
          refine ⟨FeedEntry.comment ("comment-" ++ toString c.id) c :: out,
            ?_, ?_, ?_, ?_⟩
          · simp only [mixLoop]
            rw [if_neg hpick, hout]
            rfl
          · simp at hlen ⊢
            omega
          · simpa [List.filterMap_cons, entryStory] using hsto
          · simpa [List.filterMap_cons, entryComment] using hcom

/-- C10 (amended): for every story list, comment list, storyRatio, and every
seed whose reduced initial generator state is nonzero (in particular every
non-negative seed), `mixFeed` returns an output whose length is the number of
input stories plus the number of input comments, in which every input story
appears exactly once as a story entry and every input comment exactly once as
a comment entry.  (For the excluded degenerate seeds the source crashes,
see `mixFeed_degenerate_seed`.) -/
theorem mixFeed_exact_interleaving (stories : List StoryEntity)
    (comments : List CommentEntity) (seed : Int) (ratio : ℚ)
    (hseed : lcgInitState seed ≠ 0) :
    ∃ out, mixFeed stories comments seed ratio = some out ∧
      out.length = stories.length + comments.length ∧
      (out.filterMap entryStory).Perm stories ∧
      (out.filterMap entryComment).Perm comments := by
  have hg0 := lcgInitState_good seed hseed
  obtain ⟨hp1, hg1⟩ := shuffle_perm stories (lcgInitState seed) hg0
  obtain ⟨hp2, hg2⟩ := shuffle_perm comments
    (shuffle stories (lcgInitState seed)).2 hg1
  have hspSome : ∀ e ∈ (shuffle stories (lcgInitState seed)).1, e.isSome := by
    intro e he
    obtain ⟨x, _, hx⟩ := List.mem_map.mp (hp1.mem_iff.mp he)
    rw [← hx]
    rfl
  have hcpSome : ∀ e ∈ (shuffle comments
      (shuffle stories (lcgInitState seed)).2).1, e.isSome := by
    intro e he
    obtain ⟨x, _, hx⟩ := List.mem_map.mp (hp2.mem_iff.mp he)
    rw [← hx]
    rfl
  obtain ⟨out, hout, hlen, hsto, hcom⟩ := mixLoop_interleaves
    ((shuffle stories (lcgInitState seed)).1.length +
      (shuffle comments (shuffle stories (lcgInitState seed)).2).1.length)
    (shuffle stories (lcgInitState seed)).1
    (shuffle comments (shuffle stories (lcgInitState seed)).2).1
    (shuffle comments (shuffle stories (lcgInitState seed)).2).2 ratio rfl
    hspSome hcpSome
  refine ⟨out, hout, ?_, ?_, ?_⟩
  · rw [hlen, hp1.length_eq, hp2.length_eq, List.length_map, List.length_map]
  · rw [hsto]
    have hperm := hp1.filterMap id
    rw [List.filterMap_map] at hperm
    simp only [Function.comp_def, Option.map_id, List.filterMap_some] at hperm
    simpa [List.reduceOption] using hperm
  · rw [hcom]
    have hperm := hp2.filterMap id
    rw [List.filterMap_map] at hperm
    simp only [Function.comp_def, Option.map_id, List.filterMap_some] at hperm
    simpa [List.reduceOption] using hperm

/-- Witness for C10's amended theorem at seed 42. -/
theorem mixFeed_exact_interleaving_witness :
    ∃ out, mixFeed [exStory1, exStory2] [exComment1] 42 (Rat.divInt 6 10) =
        some out ∧
      out.length = ([exStory1, exStory2] : List StoryEntity).length +
        ([exComment1] : List CommentEntity).length ∧
      (out.filterMap entryStory).Perm [exStory1, exStory2] ∧
      (out.filterMap entryComment).Perm [exComment1] :=
  mixFeed_exact_interleaving [exStory1, exStory2] [exComment1] 42
    (Rat.divInt 6 10) (by decide)

/-- C10 counterexample: at seed -2147483646 the reduced initial generator
state is 0, every generator value is negative, the Fisher-Yates index is -1
and the shuffled story pool contains `undefined`; reading `.id` from it makes
`mixFeed` throw (modelled as `none`), so with two input stories there is no
output at all — refuting the claim for every seed. -/
theorem mixFeed_degenerate_seed :
    mixFeed [exStory1, exStory2] [] (-2147483646) (Rat.divInt 6 10) = none ∧
    lcgInitState (-2147483646) = 0 :=
  ⟨by decide, by decide⟩

/-! ## C4: traversal dedup and depth stability -/

/-- The remote store is id-consistent: a fetched item carries the id it was
requested under (true of the HN API; `toCommentEntity` stamps `item.id`). -/
def IdConsistent (store : Nat → Option HNItem) : Prop :=
  ∀ i item, store i = some item → item.id = i

/-- Core facts about the per-story kids loop: the depth map only grows
(first write wins), the produced queue is covered by the map, stays
duplicate-free, and contains only old ids or ids that were fresh. -/
theorem enqueueKids_spec :
    ∀ (kids : List Nat) (depth : Nat) (d : List (Nat × Nat)) (q : List Nat),
      (∀ id ∈ q, (d.lookup id).isSome) →
      (∀ k v, d.lookup k = some v →
        (enqueueKids kids depth d q).1.lookup k = some v) ∧
      (∀ id ∈ (enqueueKids kids depth d q).2,
        ((enqueueKids kids depth d q).1.lookup id).isSome) ∧
      (q.Nodup → (enqueueKids kids depth d q).2.Nodup) ∧
      (∀ id ∈ (enqueueKids kids depth d q).2, id ∈ q ∨ d.lookup id = none) := by
  intro kids
  induction kids with
  | nil =>
    intro depth d q hq
    exact ⟨fun k v hv => hv, hq, fun h => h, fun id hid => Or.inl hid⟩
  | cons kid rest ih =>
    intro depth d q hq
    by_cases hk : (d.lookup kid).isSome
    · rw [show enqueueKids (kid :: rest) depth d q =
        enqueueKids rest depth d q by simp [enqueueKids, hk]]
      exact ih depth d q hq
    · have hknone : d.lookup kid = none := by
        cases hv : d.lookup kid with
        | none => rfl
        | some v => rw [hv] at hk; simp at hk
      rw [show enqueueKids (kid :: rest) depth d q =
        enqueueKids rest depth (d ++ [(kid, depth + 1)]) (q ++ [kid]) by
          simp [enqueueKids, hk]]
      have hq' : ∀ id ∈ q ++ [kid],
          ((d ++ [(kid, depth + 1)]).lookup id).isSome := by
        intro id hid
        rcases List.mem_append.mp hid with h1 | h2
        · exact lookup_isSome_append (hq id h1)
        · rw [List.mem_singleton.mp h2, lookup_append_none hknone]
          simp [List.lookup_cons]
      obtain ⟨m2, s2, n2, f2⟩ := ih depth (d ++ [(kid, depth + 1)])
        (q ++ [kid]) hq'
      refine ⟨?_, s2, ?_, ?_⟩
      · intro k v hv
        exact m2 k v (lookup_append_some hv)
      · intro hnd
        apply n2
        have hkid_not : kid ∉ q := by
          intro hin
          have := hq kid hin
          rw [hknone] at this
          simp at this
        simp [List.nodup_append, hnd, hkid_not]
      · intro id hid
        rcases f2 id hid with h1 | h2
        · rcases List.mem_append.mp h1 with hq1 | hq2
          · exact Or.inl hq1
          · rw [List.mem_singleton.mp hq2]
            exact Or.inr hknone
        · right
          cases hv : d.lookup id with
          | none => rfl
          | some v =>
            rw [lookup_append_some hv] at h2
            simp at h2

/-- First-discovery depths: any binding present after the kids loop was
either already present or records `depth + 1` for one of the kids. -/
theorem enqueueKids_new_bindings :
    ∀ (kids : List Nat) (depth : Nat) (d : List (Nat × Nat)) (q : List Nat)
      (k : Nat) (v : Nat),
      (enqueueKids kids depth d q).1.lookup k = some v →
      d.lookup k = some v ∨ (k ∈ kids ∧ v = depth + 1) := by
  intro kids
  induction kids with
  | nil => intro depth d q k v hv; exact Or.inl hv
  | cons kid rest ih =>
    intro depth d q k v hv
    by_cases hk : (d.lookup kid).isSome
    · rw [show enqueueKids (kid :: rest) depth d q =
        enqueueKids rest depth d q by simp [enqueueKids, hk]] at hv
      rcases ih depth d q k v hv with h1 | h2
      · exact Or.inl h1
      · exact Or.inr ⟨List.mem_cons_of_mem _ h2.1, h2.2⟩
    · have hknone : d.lookup kid = none := by
        cases hw : d.lookup kid with
        | none => rfl
        | some w => rw [hw] at hk; simp at hk
      rw [show enqueueKids (kid :: rest) depth d q =
        enqueueKids rest depth (d ++ [(kid, depth + 1)]) (q ++ [kid]) by
          simp [enqueueKids, hk]] at hv
      rcases ih depth (d ++ [(kid, depth + 1)]) (q ++ [kid]) k v hv with h1 | h2
      · cases hw : d.lookup k with
        | some w =>
          rw [lookup_append_some hw] at h1
          injection h1 with h1
          subst h1
          exact Or.inl rfl
        | none =>
          rw [lookup_append_none hw] at h1
          rw [List.lookup_cons] at h1
          cases hkk : (k == kid) with
          | true =>
            rw [hkk] at h1
            have : k = kid := eq_of_beq hkk
            refine Or.inr ⟨this ▸ List.mem_cons_self _ _, ?_⟩
            simpa using h1.symm
          | false =>
            rw [hkk] at h1
            simp at h1
      · exact Or.inr ⟨List.mem_cons_of_mem _ h2.1, h2.2⟩

/-- Invariant of the per-story drain state: the queue has no duplicates and
is covered by the depth map, emitted comment ids are pairwise distinct, never
still queued, and each carries exactly its recorded depth. -/
def ThreadInv (s : ThreadLoopState) : Prop :=
  s.queue.Nodup ∧
  (∀ id ∈ s.queue, (s.depthById.lookup id).isSome) ∧
  (s.comments.map CommentEntity.id).Nodup ∧
  (∀ c ∈ s.comments, c.id ∉ s.queue) ∧
  (∀ c ∈ s.comments, s.depthById.lookup c.id = some c.depth)

/-- Chunk processing preserves the invariant when the processed ids are the
spliced-off chunk: duplicate-free, no longer queued, depth-covered, and not
yet emitted.  The depth map only grows (first write wins). -/
theorem threadProcessBatch_inv (store : Nat → Option HNItem)
    (hstore : IdConsistent store) (story : StoryEntity) (batchSize : Nat) :
    ∀ (pending : List Nat) (s : ThreadLoopState),
      ThreadInv s → pending.Nodup →
      (∀ id ∈ pending, id ∉ s.queue) →
      (∀ id ∈ pending, (s.depthById.lookup id).isSome) →
      (∀ id ∈ pending, ∀ c ∈ s.comments, c.id ≠ id) →
      ThreadInv (threadProcessBatch story batchSize (pending.map store) s) ∧
      (∀ k v, s.depthById.lookup k = some v →
        (threadProcessBatch story batchSize
          (pending.map store) s).depthById.lookup k = some v) := by
  intro pending
  induction pending with
  | nil =>
    intro s hinv _ _ _ _
    exact ⟨hinv, fun k v hv => hv⟩
  | cons b rest ih =>
    intro s hinv hnd hqd hkeys hcom
    obtain ⟨hqnd, hqcov, hcnd, hcq, hcd⟩ := hinv
    rw [List.map_cons]
    cases hb : store b with
    | none =>
      rw [show threadProcessBatch story batchSize (none :: rest.map store) s =
        threadProcessBatch story batchSize (rest.map store) s from rfl]
      exact ih s ⟨hqnd, hqcov, hcnd, hcq, hcd⟩ (List.Nodup.of_cons hnd)
        (fun id hid => hqd id (List.mem_cons_of_mem _ hid))
        (fun id hid => hkeys id (List.mem_cons_of_mem _ hid))
        (fun id hid => hcom id (List.mem_cons_of_mem _ hid))
    | some item =>
      have hbid : item.id = b := hstore b item hb
      have hbkey : (s.depthById.lookup b).isSome :=
        hkeys b (List.mem_cons_self _ _)
      obtain ⟨d, hd⟩ := Option.isSome_iff_exists.mp hbkey
      have hdepth : (s.depthById.lookup item.id).getD 0 = d := by
        rw [hbid, hd]
        rfl
      obtain ⟨mono, cov, qnd, fresh⟩ :=
        enqueueKids_spec item.kids ((s.depthById.lookup item.id).getD 0)
          s.depthById s.queue hqcov
      have hstep : ∀ (comments1 : List CommentEntity) (added1 : Nat),
          (comments1.map CommentEntity.id).Nodup →
          (∀ c ∈ comments1,
            (enqueueKids item.kids ((s.depthById.lookup item.id).getD 0)
              s.depthById s.queue).1.lookup c.id = some c.depth) →
          (∀ c ∈ comments1, c.id ∉ (enqueueKids item.kids
            ((s.depthById.lookup item.id).getD 0)
              s.depthById s.queue).2) →
          (∀ id ∈ rest, ∀ c ∈ comments1, c.id ≠ id) →
          ThreadInv (threadProcessBatch story batchSize (rest.map store)
            { queue := (enqueueKids item.kids
                ((s.depthById.lookup item.id).getD 0) s.depthById s.queue).2,
              depthById := (enqueueKids item.kids
                ((s.depthById.lookup item.id).getD 0) s.depthById s.queue).1,
              comments := comments1, added := added1 }) ∧
          (∀ k v, s.depthById.lookup k = some v →
            (threadProcessBatch story batchSize (rest.map store)
              { queue := (enqueueKids item.kids
                  ((s.depthById.lookup item.id).getD 0) s.depthById s.queue).2,
                depthById := (enqueueKids item.kids
                  ((s.depthById.lookup item.id).getD 0) s.depthById s.queue).1,
                comments := comments1,
                added := added1 }).depthById.lookup k = some v) := by
        intro comments1 added1 hc1nd hc1d hc1q hc1rest
        have hinv1 : ThreadInv
            { queue := (enqueueKids item.kids
                ((s.depthById.lookup item.id).getD 0) s.depthById s.queue).2,
              depthById := (enqueueKids item.kids
                ((s.depthById.lookup item.id).getD 0) s.depthById s.queue).1,
              comments := comments1, added := added1 } :=
          ⟨qnd hqnd, cov, hc1nd, hc1q, hc1d⟩
        obtain ⟨hres, hmono2⟩ := ih _ hinv1 (List.Nodup.of_cons hnd)
          (fun id hid hmem => by
            rcases fresh id hmem with h1 | h1
            · exact hqd id (List.mem_cons_of_mem _ hid) h1
            · rw [(Option.isSome_iff_exists.mp
                (hkeys id (List.mem_cons_of_mem _ hid))).choose_spec] at h1
              simp at h1)
          (fun id hid => by
            obtain ⟨v, hv⟩ := Option.isSome_iff_exists.mp
              (hkeys id (List.mem_cons_of_mem _ hid))
            rw [mono id v hv]
            rfl)
          hc1rest
        exact ⟨hres, fun k v hv => hmono2 k v (mono k v hv)⟩
      cases hmap : toCommentEntity item story
          ((s.depthById.lookup item.id).getD 0) with
      | none =>
        rw [show threadProcessBatch story batchSize
            ((some item :: rest.map store)) s =
          (if s.added ≥ batchSize then
            { queue := (enqueueKids item.kids
                ((s.depthById.lookup item.id).getD 0) s.depthById s.queue).2,
              depthById := (enqueueKids item.kids
                ((s.depthById.lookup item.id).getD 0) s.depthById s.queue).1,
              comments := s.comments, added := s.added }
          else threadProcessBatch story batchSize (rest.map store)
            { queue := (enqueueKids item.kids
                ((s.depthById.lookup item.id).getD 0) s.depthById s.queue).2,
              depthById := (enqueueKids item.kids
                ((s.depthById.lookup item.id).getD 0) s.depthById s.queue).1,
              comments := s.comments, added := s.added }) from by
          simp [threadProcessBatch, hmap]]
        have hcomshared : ∀ c ∈ s.comments,
            (enqueueKids item.kids ((s.depthById.lookup item.id).getD 0)
              s.depthById s.queue).1.lookup c.id = some c.depth :=
          fun c hc => mono c.id c.depth (hcd c hc)
        have hcq1 : ∀ c ∈ s.comments, c.id ∉ (enqueueKids item.kids
            ((s.depthById.lookup item.id).getD 0) s.depthById s.queue).2 := by
          intro c hc hmem
          rcases fresh c.id hmem with h1 | h1
          · exact hcq c hc h1
          · rw [hcd c hc] at h1
            simp at h1
        split
        · exact ⟨⟨qnd hqnd, cov, hcnd, hcq1, hcomshared⟩, mono⟩
        · exact hstep s.comments s.added hcnd hcomshared hcq1
            (fun id hid c hc => hcom id (List.mem_cons_of_mem _ hid) c hc)
      | some mapped =>
        have hmid : mapped.id = b := by
          unfold toCommentEntity at hmap
          split at hmap
          · simp at hmap
          · rw [← hbid]
            cases hmap
            rfl
        have hmdepth : mapped.depth = d := by
          unfold toCommentEntity at hmap
          split at hmap
          · simp at hmap
          · rw [← hdepth]
            cases hmap
            rfl
        rw [show threadProcessBatch story batchSize
            ((some item :: rest.map store)) s =
          (if s.added + 1 ≥ batchSize then
            { queue := (enqueueKids item.kids
                ((s.depthById.lookup item.id).getD 0) s.depthById s.queue).2,
              depthById := (enqueueKids item.kids
                ((s.depthById.lookup item.id).getD 0) s.depthById s.queue).1,
              comments := s.comments ++ [mapped], added := s.added + 1 }
          else threadProcessBatch story batchSize (rest.map store)
            { queue := (enqueueKids item.kids
                ((s.depthById.lookup item.id).getD 0) s.depthById s.queue).2,
              depthById := (enqueueKids item.kids
                ((s.depthById.lookup item.id).getD 0) s.depthById s.queue).1,
              comments := s.comments ++ [mapped],
              added := s.added + 1 }) from by
          simp [threadProcessBatch, hmap]]
        have hbfreshcom : ∀ c ∈ s.comments, c.id ≠ b :=
          fun c hc => hcom b (List.mem_cons_self _ _) c hc
        have hcnd1 : ((s.comments ++ [mapped]).map CommentEntity.id).Nodup := by
          rw [List.map_append]
          simp only [List.map_cons, List.map_nil]
          rw [List.nodup_append]
          refine ⟨hcnd, List.nodup_singleton _, ?_⟩
          intro x hx hy
          simp at hy
          obtain ⟨c, hc, hcx⟩ := List.mem_map.mp hx
          rw [hy, hmid] at hcx
          exact hbfreshcom c hc hcx
        have hcomshared1 : ∀ c ∈ s.comments ++ [mapped],
            (enqueueKids item.kids ((s.depthById.lookup item.id).getD 0)
              s.depthById s.queue).1.lookup c.id = some c.depth := by
          intro c hc
          rcases List.mem_append.mp hc with h1 | h2
          · exact mono c.id c.depth (hcd c h1)
          · rw [List.mem_singleton.mp h2, hmid, hmdepth]
            exact mono b d hd
        have hcq1 : ∀ c ∈ s.comments ++ [mapped], c.id ∉ (enqueueKids item.kids
            ((s.depthById.lookup item.id).getD 0) s.depthById s.queue).2 := by
          intro c hc hmem
          rcases List.mem_append.mp hc with h1 | h2
          · rcases fresh c.id hmem with hq1 | hq1
            · exact hcq c h1 hq1
            · rw [hcd c h1] at hq1
              simp at hq1
          · rw [List.mem_singleton.mp h2, hmid] at hmem
            rcases fresh b hmem with hq1 | hq1
            · exact hqd b (List.mem_cons_self _ _) hq1
            · rw [hd] at hq1
              simp at hq1
        split
        · exact ⟨⟨qnd hqnd, cov, hcnd1, hcq1, hcomshared1⟩, mono⟩
        · refine hstep (s.comments ++ [mapped]) (s.added + 1) hcnd1
            hcomshared1 hcq1 ?_
          intro id hid c hc
          rcases List.mem_append.mp hc with h1 | h2
          · exact hcom id (List.mem_cons_of_mem _ hid) c h1
          · rw [List.mem_singleton.mp h2, hmid]
            intro hbid2
            rw [hbid2] at hnd
            exact (List.nodup_cons.mp hnd).1 hid

/-- The whole per-story drain preserves the invariant, and the depth map only
grows across it (first write wins). -/
theorem threadDrainLoop_inv (store : Nat → Option HNItem)
    (hstore : IdConsistent store) (story : StoryEntity)
    (batchSize concurrency : Nat) :
    ∀ (fuel : Nat) (s : ThreadLoopState), ThreadInv s →
      ThreadInv (threadDrainLoop store story batchSize concurrency fuel s) ∧
      (∀ k v, s.depthById.lookup k = some v →
        (threadDrainLoop store story batchSize concurrency fuel
          s).depthById.lookup k = some v) := by
  intro fuel
  induction fuel with
  | zero => intro s hinv; exact ⟨hinv, fun k v hv => hv⟩
  | succ n ih =>
    intro s hinv
    obtain ⟨hqnd, hqcov, hcnd, hcq, hcd⟩ := hinv
    unfold threadDrainLoop
    split
    · have hnd2 : (s.queue.take concurrency ++
          s.queue.drop concurrency).Nodup := by
        rw [List.take_append_drop]
        exact hqnd
      rw [List.nodup_append] at hnd2
      obtain ⟨hbnd, hrnd, hdisj⟩ := hnd2
      have hinv1 : ThreadInv { s with queue := s.queue.drop concurrency } := by
        refine ⟨hrnd, ?_, hcnd, ?_, hcd⟩
        · intro id hid
          exact hqcov id (List.drop_subset _ _ hid)
        · intro c hc hmem
          exact hcq c hc (List.drop_subset _ _ hmem)
      obtain ⟨hinv2, hmono2⟩ := threadProcessBatch_inv store hstore story
        batchSize (s.queue.take concurrency)
        { s with queue := s.queue.drop concurrency } hinv1 hbnd
        (fun id hid => hdisj hid)
        (fun id hid => hqcov id (List.take_subset _ _ hid))
        (fun id hid c hc hcontra =>
          hcq c hc (List.take_subset _ _ (hcontra ▸ hid)))
      obtain ⟨hinv3, hmono3⟩ := ih _ hinv2
      exact ⟨hinv3, fun k v hv => hmono3 k v (hmono2 k v hv)⟩
    · exact ⟨⟨hqnd, hqcov, hcnd, hcq, hcd⟩, fun k v hv => hv⟩

/-- Invariant of the cross-story drain relative to the seen set at call
start: the seen set only grows by appending, the batch's comment ids are
pairwise distinct, and every emitted comment is newly seen. -/
def FeedInv (seen0 : List Nat) (s : FeedLoopState) : Prop :=
  (∃ t, s.seen = seen0 ++ t) ∧
  ((s.comments.map CommentEntity.id).Nodup) ∧
  (∀ c ∈ s.comments, c.id ∈ s.seen ∧ c.id ∉ seen0)

/-- Cross-story chunk processing preserves the seen/dedup invariant. -/
theorem feedProcessBatch_inv (store : Nat → Option HNItem)
    (hstore : IdConsistent store) (storyById : List (Nat × StoryEntity))
    (batchSize : Nat) (seen0 : List Nat) :
    ∀ (entries : List FeedCommentQueueItem) (s : FeedLoopState),
      FeedInv seen0 s →
      FeedInv seen0 (feedProcessBatch storyById batchSize
        (entries.map (fun e => (e, store e.commentId))) s) := by
  intro entries
  induction entries with
  | nil => intro s h; exact h
  | cons entry rest ih =>
    intro s h
    obtain ⟨⟨t, hseen⟩, hnd, hmem⟩ := h
    rw [List.map_cons]
    cases hb : store entry.commentId with
    | none =>
      rw [show feedProcessBatch storyById batchSize
          ((entry, none) :: rest.map (fun e => (e, store e.commentId))) s =
        feedProcessBatch storyById batchSize
          (rest.map (fun e => (e, store e.commentId))) s from rfl]
      exact ih s ⟨⟨t, hseen⟩, hnd, hmem⟩
    | some item =>
      by_cases hseenb : s.seen.contains entry.commentId
      · have hmem2 : entry.commentId ∈ s.seen := by simpa using hseenb
        rw [show feedProcessBatch storyById batchSize
            ((entry, some item) :: rest.map (fun e => (e, store e.commentId)))
            s = feedProcessBatch storyById batchSize
            (rest.map (fun e => (e, store e.commentId))) s from by
          simp [feedProcessBatch, hmem2]]
        exact ih s ⟨⟨t, hseen⟩, hnd, hmem⟩
      · have hnotseen : entry.commentId ∉ s.seen := by
          intro hmem2
          exact hseenb (List.elem_eq_true_of_mem hmem2)
        have hid : item.id = entry.commentId := hstore _ _ hb
        have hseenInv : FeedInv seen0
            { queue := s.queue, seen := s.seen ++ [entry.commentId],
              comments := s.comments } := by
          refine ⟨⟨t ++ [entry.commentId], by rw [hseen, List.append_assoc]⟩,
            hnd, ?_⟩
          intro c hc
          exact ⟨List.mem_append_left _ (hmem c hc).1, (hmem c hc).2⟩
        cases hsb : storyById.lookup entry.storyId with
        | none =>
          rw [show feedProcessBatch storyById batchSize
              ((entry, some item) ::
                rest.map (fun e => (e, store e.commentId))) s =
            feedProcessBatch storyById batchSize
              (rest.map (fun e => (e, store e.commentId)))
              { queue := s.queue, seen := s.seen ++ [entry.commentId],
                comments := s.comments } from by
            simp [feedProcessBatch, hnotseen, hsb]]
          exact ih _ hseenInv
        | some story =>
          cases hmap : toCommentEntity item story entry.depth with
          | none =>
            rw [show feedProcessBatch storyById batchSize
                ((entry, some item) ::
                  rest.map (fun e => (e, store e.commentId))) s =
              (if s.comments.length ≥ batchSize then
                { queue := enqueueFeedKids entry.storyId entry.depth item.kids
                    (s.seen ++ [entry.commentId]) s.queue,
                  seen := s.seen ++ [entry.commentId],
                  comments := s.comments }
              else feedProcessBatch storyById batchSize
                (rest.map (fun e => (e, store e.commentId)))
                { queue := enqueueFeedKids entry.storyId entry.depth item.kids
                    (s.seen ++ [entry.commentId]) s.queue,
                  seen := s.seen ++ [entry.commentId],
                  comments := s.comments }) from by
              simp [feedProcessBatch, hnotseen, hsb, hmap]]
            have hinner : FeedInv seen0
                { queue := enqueueFeedKids entry.storyId entry.depth item.kids
                    (s.seen ++ [entry.commentId]) s.queue,
                  seen := s.seen ++ [entry.commentId],
                  comments := s.comments } := by
              refine ⟨⟨t ++ [entry.commentId],
                by rw [hseen, List.append_assoc]⟩, hnd, ?_⟩
              intro c hc
              exact ⟨List.mem_append_left _ (hmem c hc).1, (hmem c hc).2⟩
            split
            · exact hinner
            · exact ih _ hinner
          | some mapped =>
            have hmid : mapped.id = entry.commentId := by
              unfold toCommentEntity at hmap
              split at hmap
              · simp at hmap
              · rw [← hid]
                cases hmap
                rfl
            rw [show feedProcessBatch storyById batchSize
                ((entry, some item) ::
                  rest.map (fun e => (e, store e.commentId))) s =
              (if (s.comments ++ [mapped]).length ≥ batchSize then
                { queue := enqueueFeedKids entry.storyId entry.depth item.kids
                    (s.seen ++ [entry.commentId]) s.queue,
                  seen := s.seen ++ [entry.commentId],
                  comments := s.comments ++ [mapped] }
              else feedProcessBatch storyById batchSize
                (rest.map (fun e => (e, store e.commentId)))
                { queue := enqueueFeedKids entry.storyId entry.depth item.kids
                    (s.seen ++ [entry.commentId]) s.queue,
                  seen := s.seen ++ [entry.commentId],
                  comments := s.comments ++ [mapped] }) from by
              simp [feedProcessBatch, hnotseen, hsb, hmap]]
            have hndnew : ((s.comments ++ [mapped]).map
                CommentEntity.id).Nodup := by
              rw [List.map_append]
              simp only [List.map_cons, List.map_nil]
              rw [List.nodup_append]
              refine ⟨hnd, List.nodup_singleton _, ?_⟩
              intro x hx hy
              simp at hy
              obtain ⟨c, hc, hcx⟩ := List.mem_map.mp hx
              rw [hy, hmid] at hcx
              exact hnotseen (hcx ▸ (hmem c hc).1)
            have hinner : FeedInv seen0
                { queue := enqueueFeedKids entry.storyId entry.depth item.kids
                    (s.seen ++ [entry.commentId]) s.queue,
                  seen := s.seen ++ [entry.commentId],
                  comments := s.comments ++ [mapped] } := by
              refine ⟨⟨t ++ [entry.commentId],
                by rw [hseen, List.append_assoc]⟩, hndnew, ?_⟩
              intro c hc
              rcases List.mem_append.mp hc with h1 | h2
              · exact ⟨List.mem_append_left _ (hmem c h1).1, (hmem c h1).2⟩
              · rw [List.mem_singleton.mp h2, hmid]
                refine ⟨List.mem_append_right _ (List.mem_singleton_self _), ?_⟩
                intro h0
                exact hnotseen (by rw [hseen]; exact List.mem_append_left _ h0)
            split
            · exact hinner
            · exact ih _ hinner

/-- The whole cross-story drain preserves the seen/dedup invariant. -/
theorem feedDrainLoop_inv (store : Nat → Option HNItem)
    (hstore : IdConsistent store) (storyById : List (Nat × StoryEntity))
    (batchSize concurrency : Nat) (seen0 : List Nat) :
    ∀ (fuel : Nat) (s : FeedLoopState), FeedInv seen0 s →
      FeedInv seen0 (feedDrainLoop store storyById batchSize concurrency
        fuel s) := by
  intro fuel
  induction fuel with
  | zero => intro s h; exact h
  | succ n ih =>
    intro s h
    unfold feedDrainLoop
    split
    · exact ih _ (feedProcessBatch_inv store hstore storyById batchSize seen0
        (s.queue.take concurrency) { s with queue := s.queue.drop concurrency }
        ⟨h.1, h.2.1, h.2.2⟩)
    · exact h

/-- Per-story invariant lifted to a stored session (the drain starts with the
session's fields and a fresh `added` counter). -/
def ThreadSessionInv (s : StoryThreadSession) : Prop :=
  ThreadInv { queue := s.queue
              depthById := s.depthById
              comments := s.comments
              added := 0 }

/-- Every entry produced by the cross-story kids loop is either an old queue
entry or a child entry of the processed item at its parent's depth plus 1. -/
theorem enqueueFeedKids_entries (storyId depth : Nat) :
    ∀ (kids seen : List Nat) (q : List FeedCommentQueueItem),
      ∀ e ∈ enqueueFeedKids storyId depth kids seen q,
        e ∈ q ∨ (e.storyId = storyId ∧ e.commentId ∈ kids ∧
          e.depth = depth + 1) := by
  intro kids
  induction kids with
  | nil => intro seen q e he; exact Or.inl he
  | cons kid rest ih =>
    intro seen q e he
    rw [show enqueueFeedKids storyId depth (kid :: rest) seen q =
      enqueueFeedKids storyId depth rest seen
        (if seen.contains kid then q
         else q ++ [{ storyId := storyId
                      commentId := kid
                      depth := depth + 1 }]) from rfl] at he
    rcases ih seen _ e he with h1 | h2
    · split at h1
      · exact Or.inl h1
      · rcases List.mem_append.mp h1 with hq | hn
        · exact Or.inl hq
        · rw [List.mem_singleton.mp hn]
          exact Or.inr ⟨rfl, List.mem_cons_self _ _, rfl⟩
    · exact Or.inr ⟨h2.1, List.mem_cons_of_mem _ h2.2.1, h2.2.2⟩

/-- A freshly created per-story session satisfies the invariant (given its
root id list has no duplicates) and records every root at depth 0. -/
theorem createStoryThreadSession_inv (store : Nat → Option HNItem)
    (storyId : Nat) (created : StoryThreadSession)
    (hc : createStoryThreadSession store storyId = some created)
    (hnd : created.queue.Nodup) :
    ThreadSessionInv created ∧
      (∀ r ∈ created.queue, created.depthById.lookup r = some 0) := by
  unfold createStoryThreadSession at hc
  split at hc
  · exact absurd hc (by simp)
  · split at hc
    · exact absurd hc (by simp)
    · injection hc with hc
      subst hc
      simp only at hnd ⊢
      constructor
      · refine ⟨hnd, ?_, List.nodup_nil, ?_, ?_⟩
        · intro id hid
          rw [lookup_map_zero_mem hid]
          rfl
        · intro c hcmem
          simp at hcmem
        · intro c hcmem
          simp at hcmem
      · intro r hr
        exact lookup_map_zero_mem hr

/-- Store for story 10 with two root comments, one of which has a child,
written as a decidable-equality chain so id-consistency is provable. -/
def storeW : Nat → Option HNItem := fun i =>
  if i = 10 then some (storyItem 10 [1, 2])
  else if i = 1 then some (commentItem 1 10 [3])
  else if i = 2 then some (commentItem 2 10 [])
  else if i = 3 then some (commentItem 3 1 [])
  else none

/-- Every item served by `storeW` carries the id it is stored under. -/
theorem storeW_consistent : IdConsistent storeW := by
  intro i item h
  unfold storeW at h
  split_ifs at h with h1 h2 h3 h4
  · injection h with h
    subst h
    simp [storyItem, baseItem, h1]
  · injection h with h
    subst h
    simp [commentItem, baseItem, h2]
  · injection h with h
    subst h
    simp [commentItem, baseItem, h3]
  · injection h with h
    subst h
    simp [commentItem, baseItem, h4]

/-- The per-story session `getStoryThreadPage` creates for story 10 of
`storeW`. -/
def exThreadSessionW : StoryThreadSession :=
  (createStoryThreadSession storeW 10).getD exThreadSession

/-- A cross-story session over `storeW` whose queue holds story 10's two root
comments at depth 0 and whose seen set is empty. -/
def exFeedSessionW : FeedCommentSession :=
  { storyKey := "10"
    storyById := [(10, exThreadSessionW.story)]
    queue := [{ storyId := 10, commentId := 1, depth := 0 },
              { storyId := 10, commentId := 2, depth := 0 }]
    seenCommentIds := []
    exhausted := false }

/-- C4 (amended): over an id-consistent store, both traversal sessions
deduplicate emissions and keep depths stable.  Cross-story
(`getNextFeedCommentBatch`): one call's batch has pairwise-distinct comment
ids, none of which was in the session's seen set before the call; the stored
session's seen set only grows by appending and covers every emitted id (so
over the session's lifetime no id is emitted twice).  Per-story
(`getStoryThreadPage` on a stored session satisfying the queue/depth
invariant): the stored-back session satisfies the invariant again, the depth
map only grows (first write wins, so a recorded depth never changes), the
accumulated comment list has pairwise-distinct ids, and every emitted comment
carries exactly its recorded depth.  A freshly created session (with
duplicate-free root ids) satisfies the invariant with every root recorded at
depth 0, and both kids loops only ever record a child at its parent's depth
plus 1.  Without the duplicate-free-roots hypothesis the claim fails: see the
counterexample, where a story listing the same root id twice emits that
comment id twice in one per-story page. -/
theorem traversal_dedup_depth_stability (store : Nat → Option HNItem)
    (hstore : IdConsistent store) (fbatch fconc ffuel : Nat)
    (fs : FeedCommentSession) (batchSize concurrency fuel : Nat)
    (sessions : List (Nat × StoryThreadSession)) (storyId : Nat)
    (s : StoryThreadSession) (hs : sessions.lookup storyId = some s)
    (hinv : ThreadSessionInv s) (storyId2 : Nat)
    (created : StoryThreadSession)
    (hcreate : createStoryThreadSession store storyId2 = some created)
    (hcnd : created.queue.Nodup) :
    (((getNextFeedCommentBatch store fbatch fconc ffuel
        (some fs)).1.comments.map CommentEntity.id).Nodup ∧
      (∀ c ∈ (getNextFeedCommentBatch store fbatch fconc ffuel
          (some fs)).1.comments, c.id ∉ fs.seenCommentIds) ∧
      (∃ fs', (getNextFeedCommentBatch store fbatch fconc ffuel
            (some fs)).2 = some fs' ∧
        (∃ t, fs'.seenCommentIds = fs.seenCommentIds ++ t) ∧
        (∀ c ∈ (getNextFeedCommentBatch store fbatch fconc ffuel
            (some fs)).1.comments, c.id ∈ fs'.seenCommentIds))) ∧
    (∃ page s',
      getStoryThreadPage store storyId batchSize concurrency false fuel
          sessions = (some page, setAssoc sessions storyId s') ∧
      ThreadSessionInv s' ∧
      (page.comments.map CommentEntity.id).Nodup ∧
      (∀ k v, s.depthById.lookup k = some v →
        s'.depthById.lookup k = some v) ∧
      (∀ c ∈ page.comments, s'.depthById.lookup c.id = some c.depth) ∧
      (∃ t, page.comments = s.comments ++ t)) ∧
    (ThreadSessionInv created ∧
      ∀ r ∈ created.queue, created.depthById.lookup r = some 0) ∧
    (∀ (kids : List Nat) (depth : Nat) (d : List (Nat × Nat))
        (q : List Nat) (k v : Nat),
      (enqueueKids kids depth d q).1.lookup k = some v →
      d.lookup k = some v ∨ (k ∈ kids ∧ v = depth + 1)) ∧
    (∀ (sid depth : Nat) (kids seen : List Nat)
        (qf : List FeedCommentQueueItem),
      ∀ e ∈ enqueueFeedKids sid depth kids seen qf,
        e ∈ qf ∨ (e.storyId = sid ∧ e.commentId ∈ kids ∧
          e.depth = depth + 1)) := by
  have hfeed := feedDrainLoop_inv store hstore fs.storyById fbatch fconc
    fs.seenCommentIds ffuel
    { queue := fs.queue, seen := fs.seenCommentIds, comments := [] }
    ⟨⟨[], by simp⟩, by simp, by simp⟩
  obtain ⟨hfin, hmono⟩ := threadDrainLoop_inv store hstore s.story batchSize
    concurrency fuel
    { queue := s.queue, depthById := s.depthById, comments := s.comments,
      added := 0 } hinv
  obtain ⟨t, ht⟩ := threadDrainLoop_comments_mono store s.story batchSize
    concurrency fuel
    { queue := s.queue, depthById := s.depthById, comments := s.comments,
      added := 0 }
  have hpage : getStoryThreadPage store storyId batchSize concurrency false
      fuel sessions =
      runStoryThreadPage store storyId batchSize concurrency fuel sessions
        s := by
    unfold getStoryThreadPage
    rw [if_neg Bool.false_ne_true]
    simp only [hs]
  refine ⟨⟨hfeed.2.1, fun c hc => (hfeed.2.2 c hc).2,
      ⟨_, rfl, hfeed.1, fun c hc => (hfeed.2.2 c hc).1⟩⟩, ?_,
    createStoryThreadSession_inv store storyId2 created hcreate hcnd,
    fun kids depth d q k v hv =>
      enqueueKids_new_bindings kids depth d q k v hv,
    fun sid depth kids seen qf e he =>
      enqueueFeedKids_entries sid depth kids seen qf e he⟩
  rw [hpage]
  unfold runStoryThreadPage
  exact ⟨_, _, rfl, hfin, hfin.2.2.1, hmono, hfin.2.2.2.2,
    ⟨t, by simpa using ht⟩⟩

/-- Witness for C4's amended theorem at the concrete `storeW` sessions. -/
theorem traversal_dedup_depth_stability_witness :
    (((getNextFeedCommentBatch storeW 10 6 50
        (some exFeedSessionW)).1.comments.map CommentEntity.id).Nodup ∧
      (∀ c ∈ (getNextFeedCommentBatch storeW 10 6 50
          (some exFeedSessionW)).1.comments,
        c.id ∉ exFeedSessionW.seenCommentIds) ∧
      (∃ fs', (getNextFeedCommentBatch storeW 10 6 50
            (some exFeedSessionW)).2 = some fs' ∧
        (∃ t, fs'.seenCommentIds = exFeedSessionW.seenCommentIds ++ t) ∧
        (∀ c ∈ (getNextFeedCommentBatch storeW 10 6 50
            (some exFeedSessionW)).1.comments, c.id ∈ fs'.seenCommentIds))) ∧
    (∃ page s',
      getStoryThreadPage storeW 10 20 8 false 100
          [(10, exThreadSessionW)] =
        (some page, setAssoc [(10, exThreadSessionW)] 10 s') ∧
      ThreadSessionInv s' ∧
      (page.comments.map CommentEntity.id).Nodup ∧
      (∀ k v, exThreadSessionW.depthById.lookup k = some v →
        s'.depthById.lookup k = some v) ∧
      (∀ c ∈ page.comments, s'.depthById.lookup c.id = some c.depth) ∧
      (∃ t, page.comments = exThreadSessionW.comments ++ t)) ∧
    (ThreadSessionInv exThreadSessionW ∧
      ∀ r ∈ exThreadSessionW.queue,
        exThreadSessionW.depthById.lookup r = some 0) ∧
    (∀ (kids : List Nat) (depth : Nat) (d : List (Nat × Nat))
        (q : List Nat) (k v : Nat),
      (enqueueKids kids depth d q).1.lookup k = some v →
      d.lookup k = some v ∨ (k ∈ kids ∧ v = depth + 1)) ∧
    (∀ (sid depth : Nat) (kids seen : List Nat)
        (qf : List FeedCommentQueueItem),
      ∀ e ∈ enqueueFeedKids sid depth kids seen qf,
        e ∈ qf ∨ (e.storyId = sid ∧ e.commentId ∈ kids ∧
          e.depth = depth + 1)) :=
  traversal_dedup_depth_stability storeW storeW_consistent 10 6 50
    exFeedSessionW 20 8 100 [(10, exThreadSessionW)] 10 exThreadSessionW
    (by decide) (by unfold ThreadSessionInv ThreadInv; decide) 10
    exThreadSessionW (by decide) (by decide)

/-- C4 counterexample: `storeC` is id-consistent but its story 10 lists root
comment id 2 twice; a single per-story page emits comment id 2 twice, so
"no comment id is emitted twice across the lifetime of one session" fails
without the duplicate-free-roots hypothesis. -/
theorem perStory_duplicate_emission :
    IdConsistent storeC ∧
    ((getStoryThreadPage storeC 10 2 8 false 100 []).1.map
      (fun p => p.comments.map CommentEntity.id) = some [2, 2]) ∧
    ¬ (∀ page, (getStoryThreadPage storeC 10 2 8 false 100 []).1 =
        some page → (page.comments.map CommentEntity.id).Nodup) := by
  refine ⟨?_, by decide, by decide⟩
  intro i item h
  unfold storeC at h
  split_ifs at h with h1 h2
  · injection h with h
    subst h
    simp [storyItem, baseItem, h1]
  · injection h with h
    subst h
    simp [commentItem, baseItem, h2]
